import Mathlib

/-!
Verification of the message threading, draft/publish lifecycle and content
sanitisation logic of the polymath social forum.

The server route handlers (`server/routes/messages.ts` — `GET /`, `POST /`,
`PATCH /:id`, `DELETE /:id`), the mongoose message schema
(`server/models/Message.ts`) and the client-side thread reconstruction
(`buildThreadStructure` in `src/components/Channel.tsx`) are embedded as pure
Lean functions over explicit store values.  Mongo ObjectIds are abstracted as
`String`s (the handlers' ObjectId *format* validation is not modelled),
timestamps are epoch milliseconds (`Int`), and the mongoose `__v` version key
is a `Nat`.

The rich-text sanitiser of `server/utils/sanitize.ts` is a configuration of
the third-party `sanitize-html` library, whose source is not part of the
repository.  It is therefore modelled from the specification (§4.1) over an
abstract HTML node tree, using the allow-lists that appear verbatim in
`server/utils/sanitize.ts` (the `span` `font-size` style filter is not
modelled: the model drops `style` attributes; no claim concerns styles).
-/

/-- Character-list test that `p` is an initial segment of `s`; used instead of
the iterator-based `String` operations so that concrete instances reduce in
the kernel. -/
def strHasPfx : List Char → List Char → Bool
  | [], _ => true
  | _ :: _, [] => false
  | p :: ps, c :: cs => p == c && strHasPfx ps cs

/-- Abstract rich-text HTML fragment, in first-child / next-sibling form: a
value is a whole forest; `elem` carries its tag, attributes, child forest and
the following siblings.  This is the post-parse view of the HTML strings the
sanitiser operates on (the parser's `lowerCaseTags` normalisation is assumed,
so tags are already lower case). -/
inductive Html where
  | nil : Html
  | text (s : String) (rest : Html)
  | elem (tag : String) (attrs : List (String × String)) (children : Html) (rest : Html)
deriving Repr, DecidableEq

/-- Splice two sibling sequences together (used when a disallowed tag is
unwrapped and its children take its place). -/
def Html.append : Html → Html → Html
  | .nil, t => t
  | .text s r, t => .text s (Html.append r t)
  | .elem tag as c r, t => .elem tag as c (Html.append r t)

/-- Tag allow-list from `server/utils/sanitize.ts`. -/
def allowedTags : List String :=
  ["p", "br", "span", "strong", "em", "u", "s", "blockquote", "code", "pre",
   "ul", "ol", "li", "h1", "h2", "h3", "h4", "h5", "h6", "a"]

/-- URL scheme allow-list from `server/utils/sanitize.ts`. -/
def allowedSchemes : List String := ["http", "https", "mailto"]

/-- First attribute value bound to key `k`. -/
def lookupAttr (attrs : List (String × String)) (k : String) : Option String :=
  (attrs.find? (fun a => a.1 == k)).map (·.2)

/-- Scheme check for anchor `href` values: protocol-relative URLs are
rejected (`allowProtocolRelative: false`), URLs with an explicit scheme must
use an allow-listed scheme (case-insensitively), scheme-less relative URLs
pass. -/
def hrefAllowed (href : String) : Bool :=
  if strHasPfx "//".data href.data then false
  else if href.data.contains ':' then
    allowedSchemes.contains (String.mk ((href.data.takeWhile (fun c => c ≠ ':')).map Char.toLower))
  else true

/-- Attribute allow-list (`allowedAttributes` in `server/utils/sanitize.ts`):
`class` on every tag, and `href`/`rel`/`target` on anchors; `style` is
dropped (see the module comment). -/
def keepAttr (tag : String) (a : String × String) : Bool :=
  a.1 == "class" || (tag == "a" && (a.1 == "href" || a.1 == "rel" || a.1 == "target"))

/-- Attributes of a sanitised anchor: the (already vetted) `href` first, then
the forced `rel="noopener noreferrer"` and `target="_blank"` of the
`transformTags` entry, then any `class` attributes. -/
def anchorAttrs (attrs : List (String × String)) : List (String × String) :=
  (match lookupAttr attrs "href" with
   | some h => [("href", h)]
   | none => []) ++
  [("rel", "noopener noreferrer"), ("target", "_blank")] ++
  attrs.filter (fun a => a.1 == "class")

/-- Modelled from the spec: `sanitizeRichText` of `server/utils/sanitize.ts`
delegates to the `sanitize-html` library, which is not part of the
repository.  Following §4.1 of the specification with the configuration of
`server/utils/sanitize.ts`: allow-listed tags keep only allow-listed
attributes; anchors get `rel`/`target` forced and are restricted to
http/https/mailto hrefs, an anchor with a disallowed href becoming a plain
span; unknown/unsafe tags are unwrapped (children kept in place of the tag);
text is kept verbatim. -/
def sanitizeRichText : Html → Html
  | .nil => .nil
  | .text s rest => .text s (sanitizeRichText rest)
  | .elem tag attrs children rest =>
    if tag == "a" then
      match lookupAttr attrs "href" with
      | some h =>
        if hrefAllowed h then
          .elem "a" (anchorAttrs attrs) (sanitizeRichText children) (sanitizeRichText rest)
        else
          .elem "span" (attrs.filter (fun a => a.1 == "class"))
            (sanitizeRichText children) (sanitizeRichText rest)
      | none =>
        .elem "a" (anchorAttrs attrs) (sanitizeRichText children) (sanitizeRichText rest)
    else if allowedTags.contains tag then
      .elem tag (attrs.filter (keepAttr tag)) (sanitizeRichText children) (sanitizeRichText rest)
    else
      Html.append (sanitizeRichText children) (sanitizeRichText rest)

/-- Concatenated text of a fragment (what remains after the
`replace(/<[^>]+>/g, '')` tag-stripping step of `isRichTextEmpty`). -/
def textContent : Html → String
  | .nil => ""
  | .text s r => s ++ textContent r
  | .elem _ _ c r => textContent c ++ textContent r

/-- Invisible character: whitespace, or the non-breaking space (the
`&nbsp;` entity that `isRichTextEmpty` strips explicitly). -/
def isBlankChar (c : Char) : Bool := c.isWhitespace || c == Char.ofNat 160

/-- String with no visible text. -/
def isBlankText (s : String) : Bool := s.data.all isBlankChar

/-- Modelled from the spec: `isRichTextEmpty` of `server/utils/sanitize.ts`
sanitises, strips markup, removes `&nbsp;` and asks whether the remaining
trimmed text is empty. -/
def isRichTextEmpty (h : Html) : Bool := isBlankText (textContent (sanitizeRichText h))

/-- Input that consists solely of disallowed tags and whitespace. -/
def disallowedOnly : Html → Bool
  | .nil => true
  | .text s r => isBlankText s && disallowedOnly r
  | .elem tag _ c r => !(allowedTags.contains tag) && disallowedOnly c && disallowedOnly r

/-- All (tag, attribute-list) pairs occurring in a fragment. -/
def elemsOf : Html → List (String × List (String × String))
  | .nil => []
  | .text _ r => elemsOf r
  | .elem t a c r => (t, a) :: (elemsOf c ++ elemsOf r)

/-- Stored message record (mongoose `Message` schema in
`server/models/Message.ts`, plus the automatic `_id`, `__v` and timestamp
fields).  `authorId` is optional in the schema, hence `Option String`;
`content` holds the (already sanitised) rich-text fragment. -/
structure StoredMsg where
  _id : String
  channel : String
  parentMessage : Option String
  authorId : Option String
  author : String
  content : Html
  isDraft : Bool
  isOrphaned : Bool
  createdAt : Int
  __v : Nat
deriving Repr, DecidableEq

/-- Structured HTTP error response: status code and `message` body. -/
structure HttpErr where
  status : Nat
  msg : String
deriving Repr, DecidableEq

/-- `Message.findById`. -/
def findById (store : List StoredMsg) (id : String) : Option StoredMsg :=
  store.find? (fun m => m._id == id)

/-- Creation-time ordering used by the routes' `sort({ createdAt: 1 })` and
by the client'side `sortByCreatedAt` comparator. -/
def msgLE (a b : StoredMsg) : Prop := a.createdAt ≤ b.createdAt

instance : DecidableRel msgLE := fun a b => inferInstanceAs (Decidable (a.createdAt ≤ b.createdAt))

instance : IsTotal StoredMsg msgLE := ⟨fun a b => Int.le_total a.createdAt b.createdAt⟩

instance : IsTrans StoredMsg msgLE := ⟨fun _ _ _ hab hbc => le_trans hab hbc⟩

/-- Channel part of the mongo filter of `GET /messages`: restrict to the
requested channel when one is given. -/
def channelMatches (channelId : Option String) (m : StoredMsg) : Bool :=
  match channelId with
  | some c => m.channel == c
  | none => true

/-- `GET /messages` (`server/routes/messages.ts`): optional channel filter,
optional `includeDrafts` flag (authenticated callers only), published
messages for everyone plus the caller's own drafts when requested, sorted by
`createdAt` ascending.  `user` is the identity established by the
`optionalAuth` middleware.  MongoDB's find-and-sort is modelled as a filter
followed by a stable sort of the stored list. -/
def listMessages (store : List StoredMsg) (user : Option String)
    (channelId : Option String) (includeDrafts : Bool) :
    Except HttpErr (List StoredMsg) :=
  if includeDrafts && user.isNone then
    .error ⟨401, "Authentication required to include drafts"⟩
  else
    let query : StoredMsg → Bool :=
      match user with
      | some uid =>
        if includeDrafts then
          fun m => (channelMatches channelId m && !m.isDraft) ||
            (channelMatches channelId m && m.isDraft && m.authorId == some uid)
        else
          fun m => channelMatches channelId m && !m.isDraft
      | none => fun m => channelMatches channelId m && !m.isDraft
    .ok ((store.filter query).insertionSort msgLE)

/-- Body of `POST /messages`.  The handler treats `parentMessageId: null`
and an absent `parentMessageId` identically (both mean "root message"), so
both are modelled as `none`; `isDraft` is optional and defaults to
`false`. -/
structure CreateReq where
  channelId : String
  content : Html
  parentMessageId : Option String
  isDraft : Option Bool
deriving Repr, DecidableEq

/-- `POST /messages` (`server/routes/messages.ts`): `requireAuth`, content
validation, channel existence check (`channels` is the set of existing
channel ids), parent resolution (must exist, live in the same channel and
not be orphaned — its `isDraft` flag is never inspected), then insertion of
the new record.  `newId` is the ObjectId minted by the store and `now` the
creation timestamp; a fresh document starts with mongoose's version key
`__v = 0`. -/
def createMessage (channels : List String) (store : List StoredMsg)
    (user : Option (String × String)) (newId : String) (now : Int)
    (req : CreateReq) : Except HttpErr (List StoredMsg × StoredMsg) :=
  match user with
  | none => .error ⟨401, "Authentication required"⟩
  | some (uid, uname) =>
    if isRichTextEmpty req.content then
      .error ⟨400, "Message content is required"⟩
    else if !channels.contains req.channelId then
      .error ⟨404, "Channel not found"⟩
    else
      let insert : Option String → Except HttpErr (List StoredMsg × StoredMsg) :=
        fun parent =>
          let m : StoredMsg :=
            { _id := newId, channel := req.channelId, parentMessage := parent,
              authorId := some uid, author := uname,
              content := sanitizeRichText req.content,
              isDraft := req.isDraft.getD false, isOrphaned := false,
              createdAt := now, __v := 0 }
          .ok (store ++ [m], m)
      match req.parentMessageId with
      | none => insert none
      | some pid =>
        match findById store pid with
        | none => .error ⟨404, "Parent message not found"⟩
        | some parentMsg =>
          if parentMsg.channel != req.channelId then
            .error ⟨400, "Parent message belongs to a different channel"⟩
          else if parentMsg.isOrphaned then
            .error ⟨400, "Cannot reply to an orphaned message"⟩
          else insert (some parentMsg._id)

/-- Body of `PATCH /messages/:id`: each field is optional. -/
structure PatchReq where
  content : Option Html
  publish : Option Bool
  isDraft : Option Bool
deriving Repr, DecidableEq

/-- `bumpDocumentVersion` of `server/routes/messages.ts`: with `__v : Nat`
the current version is always a number, so the bump is exactly `+ 1`. -/
def bumpDocumentVersion (m : StoredMsg) : StoredMsg := { m with __v := m.__v + 1 }

/-- Write-back of a mutated document (`message.save()`): replace the record
with the matching `_id`. -/
def updateById (store : List StoredMsg) (id : String) (m : StoredMsg) : List StoredMsg :=
  store.map (fun x => if x._id == id then m else x)

/-- `PATCH /messages/:id` (`server/routes/messages.ts`): update and/or
publish a message.  Mirrors the handler: field validation, author check,
`shouldIncrementVersion` is decided from the pre-update draft flag and the
presence of new content, drafts cannot be un-published, publishing requires
a draft whose own `isOrphaned` flag is clear and whose parent (if any) still
exists and is not orphaned, publication clears `isDraft` and refreshes
`createdAt` to `now`.  Every error path returns before `save()`, so the
store is returned unchanged exactly on success. -/
def updateMessage (store : List StoredMsg) (user : Option String) (id : String)
    (now : Int) (req : PatchReq) : Except HttpErr (List StoredMsg × StoredMsg) :=
  match user with
  | none => .error ⟨401, "Authentication required"⟩
  | some uid =>
    if req.content.isNone && req.publish.isNone && req.isDraft.isNone then
      .error ⟨400, "No valid fields provided for update"⟩
    else if (req.content.map isRichTextEmpty).getD false then
      .error ⟨400, "Content must be a non-empty string"⟩
    else
      match findById store id with
      | none => .error ⟨404, "Message not found"⟩
      | some message =>
        if message.authorId != some uid then
          .error ⟨403, "You can only update your own messages"⟩
        else
          let wasDraftBeforeUpdate := message.isDraft
          let shouldIncrementVersion := !wasDraftBeforeUpdate && req.content.isSome
          let message1 :=
            match req.content with
            | some c => { message with content := sanitizeRichText c }
            | none => message
          let finalize : StoredMsg → Except HttpErr (List StoredMsg × StoredMsg) :=
            fun m' =>
              let m'' := if shouldIncrementVersion then bumpDocumentVersion m' else m'
              .ok (updateById store id m'', m'')
          if req.isDraft == some true && !message.isDraft then
            .error ⟨400, "Published messages cannot be reverted to drafts"⟩
          else if req.publish == some true || (req.isDraft == some false && message.isDraft) then
            if !message.isDraft then
              .error ⟨400, "Message is already published"⟩
            else if message.isOrphaned then
              .error ⟨400, "Cannot publish a reply to an orphaned message"⟩
            else
              match message.parentMessage with
              | some pid =>
                match findById store pid with
                | none => .error ⟨400, "Cannot publish a reply to an orphaned message"⟩
                | some parentMsg =>
                  if parentMsg.isOrphaned then
                    .error ⟨400, "Cannot publish a reply to an orphaned message"⟩
                  else
                    finalize { message1 with isDraft := false, createdAt := now }
              | none => finalize { message1 with isDraft := false, createdAt := now }
          else
            finalize message1

/-- `DELETE /messages/:id` (`server/routes/messages.ts`): author-only;
`deleteOne({_id})` removes the (unique) record, then
`updateMany({parentMessage: id}, {isOrphaned: true})` flags every direct
child.  On success the handler responds with the deleted id. -/
def deleteMessage (store : List StoredMsg) (user : Option String) (id : String) :
    Except HttpErr (List StoredMsg × String) :=
  match user with
  | none => .error ⟨401, "Authentication required"⟩
  | some uid =>
    match findById store id with
    | none => .error ⟨404, "Message not found"⟩
    | some message =>
      if message.authorId != some uid then
        .error ⟨403, "You can only delete your own messages"⟩
      else
        let afterDelete := store.eraseP (fun x => x._id == message._id)
        let afterOrphan := afterDelete.map
          (fun x => if x.parentMessage == some message._id then { x with isOrphaned := true } else x)
        .ok (afterOrphan, message._id)

/-- Client-side message record (`MessageType` in
`src/components/Channel.tsx`).  `createdAt` is the epoch-millisecond value
of the ISO timestamp string; optional display fields that
`buildThreadStructure` only copies are kept as plain values. -/
structure CMsg where
  _id : String
  channel : String
  author : String
  content : String
  createdAt : Int
  parentMessage : Option String
  isDraft : Bool
  isOrphaned : Bool
  isPlaceholder : Bool
  placeholderFor : Option String
deriving Repr, DecidableEq

/-- Ordering of the `sortByCreatedAt` comparator in
`src/components/Channel.tsx`. -/
def cMsgLE (a b : CMsg) : Prop := a.createdAt ≤ b.createdAt

instance : DecidableRel cMsgLE := fun a b => inferInstanceAs (Decidable (a.createdAt ≤ b.createdAt))

instance : IsTotal CMsg cMsgLE := ⟨fun a b => Int.le_total a.createdAt b.createdAt⟩

instance : IsTrans CMsg cMsgLE := ⟨fun _ _ _ hab hbc => le_trans hab hbc⟩

/-- Stable ascending sort by `createdAt` (`[...arr].sort(sortByCreatedAt)`;
`Array.prototype.sort` is stable, and any stable sort on the same key
computes the same list). -/
def sortByCreatedAt (l : List CMsg) : List CMsg := l.insertionSort cMsgLE

/-- JavaScript `Map` from parent id to child list, as an insertion-ordered
association list. -/
abbrev ChildMap := List (String × List CMsg)

/-- `Map.prototype.get`. -/
def mapGet (m : ChildMap) (k : String) : Option (List CMsg) :=
  (m.find? (fun e => e.1 == k)).map (·.2)

/-- `Map.prototype.set`: overwrite in place if the key exists (keeping its
insertion position), otherwise append.  `Map` keys are unique, and every map
below is built by `mapSet` from `[]`, so replacing the first occurrence is
the exact `Map` behaviour. -/
def mapSet : ChildMap → String → List CMsg → ChildMap
  | [], k, v => [(k, v)]
  | e :: es, k, v => if e.1 == k then (k, v) :: es else e :: mapSet es k v

/-- `Map.prototype.delete`. -/
def mapDelete (m : ChildMap) (k : String) : ChildMap :=
  m.filter (fun e => e.1 != k)

/-- One step of the loop that fills `childrenMap` in
`buildThreadStructure`: a message with a parent is appended to its parent's
bucket. -/
def childEntriesStep (acc : ChildMap) (m : CMsg) : ChildMap :=
  match m.parentMessage with
  | some p => mapSet acc p ((mapGet acc p).getD [] ++ [m])
  | none => acc

/-- The `childrenMap` of `buildThreadStructure` after grouping and the
per-bucket re-sort. -/
def buildChildrenMap (sorted : List CMsg) : ChildMap :=
  (sorted.foldl childEntriesStep []).map (fun e => (e.1, sortByCreatedAt e.2))

/-- Entry whose key resolves to no message of the visible set
(`!messageMap.has(parentId)`). -/
def isMissingParent (sorted : List CMsg) (e : String × List CMsg) : Bool :=
  !(sorted.any (fun m => m._id == e.1))

/-- The `missingParents` list of `buildThreadStructure`, in `childrenMap`
insertion order. -/
def buildMissingParents (sorted : List CMsg) : ChildMap :=
  (buildChildrenMap sorted).filter (isMissingParent sorted)

/-- The synthetic placeholder root for missing parent `pid`, where `c0` is
the earliest orphaned child (`children[0]` of the sorted bucket). -/
def mkPlaceholder (pid : String) (c0 : CMsg) : CMsg :=
  { _id := "placeholder-" ++ pid, channel := c0.channel,
    author := "Deleted message", content := "Message has been deleted",
    createdAt := c0.createdAt - 1000, parentMessage := none,
    isDraft := false, isOrphaned := true, isPlaceholder := true,
    placeholderFor := some pid }

/-- One iteration of the `missingParents.forEach` loop: guard for an empty
bucket (dead in practice), otherwise synthesize the placeholder, re-key the
bucket under the placeholder id and drop the missing key. -/
def placeholderStep (st : ChildMap × List CMsg) (e : String × List CMsg) :
    ChildMap × List CMsg :=
  match e.2 with
  | [] => (mapDelete st.1 e.1, st.2)
  | c0 :: _ =>
    (mapDelete (mapSet st.1 ("placeholder-" ++ e.1) e.2) e.1,
     st.2 ++ [mkPlaceholder e.1 c0])

/-- Children map and placeholder list after the placeholder-synthesis pass
of `buildThreadStructure` (`childrenMap` and `placeholderRecords` just after
the `missingParents.forEach` loop). -/
def placeholderState (msgs : List CMsg) : ChildMap × List CMsg :=
  let sorted := sortByCreatedAt msgs
  (buildMissingParents sorted).foldl placeholderStep (buildChildrenMap sorted, [])

/-- A root with its ordered reply list. -/
structure ThreadGroup where
  root : CMsg
  children : List CMsg
deriving Repr, DecidableEq

/-- Result shape of `buildThreadStructure`. -/
structure ThreadStructure where
  primaryMessage : Option CMsg
  primaryChildren : List CMsg
  otherThreads : List ThreadGroup
deriving Repr, DecidableEq

/-- `buildThreadStructure` of `src/components/Channel.tsx` (the identical
duplicate lives next to `ChannelCard`): sort the visible set, group children
by parent, synthesize placeholder roots for missing parents, merge and
re-sort the roots, and split off the earliest root as the primary thread. -/
def buildThreadStructure (allMessages : List CMsg) : ThreadStructure :=
  if allMessages.isEmpty then
    ⟨none, [], []⟩
  else
    let sorted := sortByCreatedAt allMessages
    let st := placeholderState allMessages
    let augmentedRoots :=
      (sortByCreatedAt (sorted ++ st.2)).filter (fun m => m.parentMessage.isNone)
    match augmentedRoots with
    | [] =>
      ⟨none, [],
       st.2.map (fun ph => ⟨ph, (mapGet st.1 ph._id).getD []⟩)⟩
    | primary :: otherRoots =>
      ⟨some primary, (mapGet st.1 primary._id).getD [],
       otherRoots.map (fun r => ⟨r, (mapGet st.1 r._id).getD []⟩)⟩

/-- Boolean form of "the parent reference of `c`, if any, does not use the
reserved `placeholder-` id prefix".  Visible sets delivered by the store
satisfy this: ids are Mongo ObjectIds (hex strings), and synthetic
placeholder records never flow back into the stored message list. -/
def pfxFreeParent (c : CMsg) : Bool :=
  match c.parentMessage with
  | some q => !(strHasPfx "placeholder-".data q.data)
  | none => true

/-- Placeholder record contributed by one missing-parent entry (empty for an
empty bucket, which cannot occur). -/
def mkPlaceholderEntry (e : String × List CMsg) : List CMsg :=
  match e.2 with
  | [] => []
  | c0 :: _ => [mkPlaceholder e.1 c0]

/-- Sample rich-text fragments for concrete instances. -/
def htmlHello : Html := .text "hello" .nil

def htmlWorld : Html := .text "world" .nil

def c2Msg1 : StoredMsg :=
  ⟨"m1", "ch1", none, some "u1", "alice", htmlHello, false, false, 100, 2⟩

def c2Msg2 : StoredMsg :=
  ⟨"m2", "ch1", none, some "u1", "alice", htmlHello, true, false, 200, 5⟩

def c2Store : List StoredMsg := [c2Msg1, c2Msg2]

def c2ReqEdit : PatchReq := ⟨some htmlWorld, none, none⟩

def c2Msg1Edited : StoredMsg :=
  ⟨"m1", "ch1", none, some "u1", "alice", htmlWorld, false, false, 100, 3⟩

def c2Msg2Edited : StoredMsg :=
  ⟨"m2", "ch1", none, some "u1", "alice", htmlWorld, true, false, 200, 5⟩

def c3Parent : StoredMsg :=
  ⟨"p1", "ch1", none, some "u2", "bob", htmlHello, false, false, 50, 0⟩

def c3Draft : StoredMsg :=
  ⟨"d1", "ch1", some "p1", some "u1", "alice", htmlHello, true, false, 100, 0⟩

def c3Store : List StoredMsg := [c3Parent, c3Draft]

def c3ReqPub : PatchReq := ⟨none, some true, none⟩

def c4Published : StoredMsg :=
  ⟨"q1", "ch1", none, some "u1", "alice", htmlHello, false, false, 100, 0⟩

def c4ReqPub : PatchReq := ⟨none, some true, none⟩

def c5Root : StoredMsg :=
  ⟨"r1", "ch1", none, some "u1", "alice", htmlHello, false, false, 10, 0⟩

def c5Child : StoredMsg :=
  ⟨"r2", "ch1", some "r1", some "u2", "bob", htmlHello, false, false, 20, 0⟩

def c5Store : List StoredMsg := [c5Root, c5Child]

def c7Pub : StoredMsg :=
  ⟨"a1", "ch1", none, some "u2", "bob", htmlHello, false, false, 10, 0⟩

def c7OwnDraft : StoredMsg :=
  ⟨"a2", "ch1", none, some "u1", "alice", htmlHello, true, false, 20, 0⟩

def c7OtherDraft : StoredMsg :=
  ⟨"a3", "ch1", none, some "u3", "carol", htmlHello, true, false, 30, 0⟩

def c7Store : List StoredMsg := [c7Pub, c7OwnDraft, c7OtherDraft]

def c10DraftParent : StoredMsg :=
  ⟨"pp1", "ch1", none, some "u2", "bob", htmlHello, true, false, 10, 0⟩

def c10Req : CreateReq := ⟨"ch1", htmlHello, some "pp1", none⟩

def c1Child : CMsg :=
  ⟨"k1", "ch1", "alice", "hi", 5000, some "gone", false, false, false, none⟩

def c6Orphan : CMsg :=
  ⟨"c1", "ch1", "alice", "hi", 5000, some "gone", false, false, false, none⟩

def c8Blank : Html := .elem "script" [] (.text "  " .nil) (.text " " .nil)

def c9Input : Html :=
  .elem "div" [] (.text "x" .nil)
    (.elem "a" [("href", "javascript:alert(1)")] (.text "link" .nil) .nil)

def c2CreateReq : CreateReq := ⟨"ch1", htmlHello, none, none⟩

def c2Created : StoredMsg :=
  ⟨"m9", "ch1", none, some "u1", "alice", htmlHello, false, false, 400, 0⟩

theorem Html.append_assoc (a b c : Html) :
    Html.append (Html.append a b) c = Html.append a (Html.append b c) := by
  induction a with
  | nil => rfl
  | text s r ih => simp [Html.append, ih]
  | elem t as ch r ihc ihr => simp [Html.append, ihr]

theorem lookupAttr_cons (a : String × String) (as : List (String × String)) (k : String) :
    lookupAttr (a :: as) k = if a.1 == k then some a.2 else lookupAttr as k := by
  by_cases h : (a.1 == k) = true <;> simp [lookupAttr, List.find?_cons, h]

theorem lookupAttr_filter_class_ne (as : List (String × String)) (k : String)
    (hk : ("class" == k) = false) :
    lookupAttr (as.filter (fun a => a.1 == "class")) k = none := by
  unfold lookupAttr
  rw [List.find?_eq_none.mpr]
  · rfl
  · intro x hx
    have := List.of_mem_filter hx
    have hx1 : x.1 = "class" := by simpa using this
    simp [hx1, hk]

theorem lookupAttr_anchorAttrs_href (as : List (String × String)) :
    lookupAttr (anchorAttrs as) "href" = lookupAttr as "href" := by
  unfold anchorAttrs
  cases hl : lookupAttr as "href" with
  | none =>
    simp only [List.nil_append, List.cons_append]
    rw [lookupAttr_cons, lookupAttr_cons]
    simp [lookupAttr_filter_class_ne]
  | some h =>
    simp only [List.cons_append, List.nil_append]
    rw [lookupAttr_cons]
    simp

theorem lookupAttr_anchorAttrs_rel (as : List (String × String)) :
    lookupAttr (anchorAttrs as) "rel" = some "noopener noreferrer" := by
  unfold anchorAttrs
  cases hl : lookupAttr as "href" with
  | none =>
    simp only [List.nil_append, List.cons_append]
    rw [lookupAttr_cons]
    simp
  | some h =>
    simp only [List.cons_append, List.nil_append]
    rw [lookupAttr_cons, lookupAttr_cons]
    simp

theorem lookupAttr_anchorAttrs_target (as : List (String × String)) :
    lookupAttr (anchorAttrs as) "target" = some "_blank" := by
  unfold anchorAttrs
  cases hl : lookupAttr as "href" with
  | none =>
    simp only [List.nil_append, List.cons_append]
    rw [lookupAttr_cons, lookupAttr_cons]
    simp
  | some h =>
    simp only [List.cons_append, List.nil_append]
    rw [lookupAttr_cons, lookupAttr_cons, lookupAttr_cons]
    simp

theorem filter_class_anchorAttrs (as : List (String × String)) :
    (anchorAttrs as).filter (fun a => a.1 == "class") =
      as.filter (fun a => a.1 == "class") := by
  unfold anchorAttrs
  cases hl : lookupAttr as "href" with
  | none => simp [List.filter_append, List.filter_filter]
  | some h => simp [List.filter_append, List.filter_filter]

theorem anchorAttrs_idem (as : List (String × String)) :
    anchorAttrs (anchorAttrs as) = anchorAttrs as := by
  conv_lhs => rw [anchorAttrs]
  rw [lookupAttr_anchorAttrs_href, filter_class_anchorAttrs, anchorAttrs]

theorem filter_keepAttr_idem (t : String) (as : List (String × String)) :
    (as.filter (keepAttr t)).filter (keepAttr t) = as.filter (keepAttr t) := by
  simp [List.filter_filter]

theorem filter_keepAttr_span_class (as : List (String × String)) :
    (as.filter (fun a => a.1 == "class")).filter (keepAttr "span") =
      as.filter (fun a => a.1 == "class") := by
  rw [List.filter_filter]
  apply List.filter_congr
  intro a _
  by_cases h : (a.1 == "class") = true <;> simp [keepAttr, h]

theorem sanitize_append (a b : Html) :
    sanitizeRichText (Html.append a b) =
      Html.append (sanitizeRichText a) (sanitizeRichText b) := by
  induction a with
  | nil => rfl
  | text s r ih => simp [Html.append, sanitizeRichText, ih]
  | elem t as ch r ihc ihr =>
    show sanitizeRichText (.elem t as ch (Html.append r b)) = _
    by_cases hta : (t == "a") = true
    · cases hl : lookupAttr as "href" with
      | none => simp [sanitizeRichText, hta, hl, ihr, Html.append]
      | some h =>
        by_cases hok : hrefAllowed h = true <;>
          simp [sanitizeRichText, hta, hl, hok, ihr, Html.append]
    · by_cases htag : t ∈ allowedTags
      · simp [sanitizeRichText, hta, htag, ihr, Html.append]
      · simp [sanitizeRichText, hta, htag, ihr, Html.append]
        rw [Html.append_assoc]

theorem sanitize_idem (x : Html) :
    sanitizeRichText (sanitizeRichText x) = sanitizeRichText x := by
  induction x with
  | nil => rfl
  | text s r ih => simp [sanitizeRichText, ih]
  | elem t as ch r ihc ihr =>
    by_cases hta : (t == "a") = true
    · cases hl : lookupAttr as "href" with
      | none =>
        simp only [sanitizeRichText, hta, hl, if_true]
        have : lookupAttr (anchorAttrs as) "href" = none := by
          rw [lookupAttr_anchorAttrs_href, hl]
        simp [sanitizeRichText, this, anchorAttrs_idem, ihc, ihr]
      | some h =>
        by_cases hok : hrefAllowed h = true
        · simp only [sanitizeRichText, hta, hl, hok, if_true]
          have : lookupAttr (anchorAttrs as) "href" = some h := by
            rw [lookupAttr_anchorAttrs_href, hl]
          simp [sanitizeRichText, this, hok, anchorAttrs_idem, ihc, ihr]
        · simp only [sanitizeRichText, hta, hl, if_true, hok]
          have hsa : (("span" : String) == "a") = false := rfl
          have hst : ("span" : String) ∈ allowedTags := by decide
          simp [sanitizeRichText, hsa, hst, keepAttr, ihc, ihr, hok]
    · by_cases htag : t ∈ allowedTags
      · simp [sanitizeRichText, hta, htag, ihc, ihr, Bool.and_self]
      · have htag' : allowedTags.contains t = false := by simpa using htag
        simp only [sanitizeRichText, hta, htag', Bool.false_eq_true, if_false]
        rw [sanitize_append, ihc, ihr]

theorem textContent_append (a b : Html) :
    textContent (Html.append a b) = textContent a ++ textContent b := by
  induction a with
  | nil => simp [Html.append, textContent]
  | text s r ih => simp [Html.append, textContent, ih, String.append_assoc]
  | elem t as ch r ihc ihr => simp [Html.append, textContent, ihr, String.append_assoc]

theorem textContent_sanitize (x : Html) :
    textContent (sanitizeRichText x) = textContent x := by
  induction x with
  | nil => rfl
  | text s r ih => simp [sanitizeRichText, textContent, ih]
  | elem t as ch r ihc ihr =>
    by_cases hta : (t == "a") = true
    · cases hl : lookupAttr as "href" with
      | none => simp [sanitizeRichText, hta, hl, textContent, ihc, ihr]
      | some h =>
        by_cases hok : hrefAllowed h = true <;>
          simp [sanitizeRichText, hta, hl, hok, textContent, ihc, ihr]
    · by_cases htag : t ∈ allowedTags
      · simp [sanitizeRichText, hta, htag, textContent, ihc, ihr]
      · have htag' : allowedTags.contains t = false := by simpa using htag
        simp only [sanitizeRichText, hta, htag', Bool.false_eq_true, if_false]
        rw [textContent_append, ihc, ihr]
        simp [textContent]

theorem isBlankText_append (s t : String) :
    isBlankText (s ++ t) = (isBlankText s && isBlankText t) := by
  simp [isBlankText, String.data_append, List.all_append]

theorem disallowedOnly_blank (x : Html) (hx : disallowedOnly x = true) :
    isBlankText (textContent x) = true := by
  induction x with
  | nil => rfl
  | text s r ih =>
    simp only [disallowedOnly, Bool.and_eq_true] at hx
    simp [textContent, isBlankText_append, hx.1, ih hx.2]
  | elem t as ch r ihc ihr =>
    simp only [disallowedOnly, Bool.and_eq_true] at hx
    simp [textContent, isBlankText_append, ihc hx.1.2, ihr hx.2]

theorem elemsOf_append (a b : Html) :
    elemsOf (Html.append a b) = elemsOf a ++ elemsOf b := by
  induction a with
  | nil => simp [Html.append, elemsOf]
  | text s r ih => simp [Html.append, elemsOf, ih]
  | elem t as ch r ihc ihr => simp [Html.append, elemsOf, ihr]

theorem elems_sanitize_ok (x : Html) : ∀ t attrs,
    (t, attrs) ∈ elemsOf (sanitizeRichText x) →
    allowedTags.contains t = true ∧
    (t = "a" →
      lookupAttr attrs "rel" = some "noopener noreferrer" ∧
      lookupAttr attrs "target" = some "_blank" ∧
      ∀ u, lookupAttr attrs "href" = some u → hrefAllowed u = true) := by
  induction x with
  | nil => intro t attrs h; simp [sanitizeRichText, elemsOf] at h
  | text s r ih =>
    intro t attrs h
    simp only [sanitizeRichText, elemsOf] at h
    exact ih t attrs h
  | elem tg as ch r ihc ihr =>
    intro t attrs h
    by_cases hta : (tg == "a") = true
    · cases hl : lookupAttr as "href" with
      | none =>
        simp only [sanitizeRichText, hta, hl, if_true, elemsOf, List.mem_cons,
          List.mem_append] at h
        rcases h with h | h | h
        · injection h with ht hattrs
          subst ht; subst hattrs
          refine ⟨by decide, fun _ => ⟨lookupAttr_anchorAttrs_rel as,
            lookupAttr_anchorAttrs_target as, ?_⟩⟩
          intro u hu
          rw [lookupAttr_anchorAttrs_href, hl] at hu
          exact absurd hu (by simp)
        · exact ihc t attrs h
        · exact ihr t attrs h
      | some hv =>
        by_cases hok : hrefAllowed hv = true
        · simp only [sanitizeRichText, hta, hl, hok, if_true, elemsOf, List.mem_cons,
            List.mem_append] at h
          rcases h with h | h | h
          · injection h with ht hattrs
            subst ht; subst hattrs
            refine ⟨by decide, fun _ => ⟨lookupAttr_anchorAttrs_rel as,
              lookupAttr_anchorAttrs_target as, ?_⟩⟩
            intro u hu
            rw [lookupAttr_anchorAttrs_href, hl] at hu
            have : u = hv := by injection hu with h'; exact h'.symm
            subst this
            exact hok
          · exact ihc t attrs h
          · exact ihr t attrs h
        · simp only [sanitizeRichText, hta, hl, hok, if_true, if_false, elemsOf,
            List.mem_cons, List.mem_append] at h
          rcases h with h | h | h
          · injection h with ht hattrs
            subst ht; subst hattrs
            refine ⟨by decide, fun habs => absurd habs (by decide)⟩
          · exact ihc t attrs h
          · exact ihr t attrs h
    · by_cases htag : tg ∈ allowedTags
      · have htag' : allowedTags.contains tg = true := by simpa using htag
        simp only [sanitizeRichText, hta, htag', Bool.false_eq_true, if_false, if_true,
          elemsOf, List.mem_cons, List.mem_append] at h
        rcases h with h | h | h
        · injection h with ht hattrs
          refine ⟨by rw [ht]; exact htag', fun habs => ?_⟩
          exact absurd (beq_iff_eq.mpr (ht.symm.trans habs)) hta
        · exact ihc t attrs h
        · exact ihr t attrs h
      · have htag' : allowedTags.contains tg = false := by simpa using htag
        simp only [sanitizeRichText, hta, htag', Bool.false_eq_true, if_false] at h
        rw [elemsOf_append] at h
        rcases List.mem_append.mp h with h | h
        · exact ihc t attrs h
        · exact ihr t attrs h

/-- C8: for every input `x`, `sanitize (sanitize x) = sanitize x`, and
`isEmpty (sanitize x)` holds for any input composed solely of disallowed
tags and whitespace. -/
theorem c8_sanitize_idempotent (x : Html) :
    sanitizeRichText (sanitizeRichText x) = sanitizeRichText x ∧
    (disallowedOnly x = true → isRichTextEmpty (sanitizeRichText x) = true) := by
  refine ⟨sanitize_idem x, fun hx => ?_⟩
  unfold isRichTextEmpty
  rw [sanitize_idem x, textContent_sanitize x]
  exact disallowedOnly_blank x hx

theorem c8_witness :
    disallowedOnly c8Blank = true ∧
    sanitizeRichText (sanitizeRichText c8Blank) = sanitizeRichText c8Blank ∧
    isRichTextEmpty (sanitizeRichText c8Blank) = true :=
  ⟨by decide, (c8_sanitize_idempotent c8Blank).1,
    (c8_sanitize_idempotent c8Blank).2 (by decide)⟩

/-- C9: the sanitiser keeps only allow-listed tags, forces
`rel="noopener noreferrer"` and `target="_blank"` on every anchor, keeps
only allow-listed href schemes, and unwraps unknown tags keeping their text
content (text is preserved globally; a disallowed-href anchor survives only
as a `span`, so no anchor with a bad href remains). -/
theorem c9_sanitize_allowlist (x : Html) :
    textContent (sanitizeRichText x) = textContent x ∧
    ∀ t attrs, (t, attrs) ∈ elemsOf (sanitizeRichText x) →
      allowedTags.contains t = true ∧
      (t = "a" →
        lookupAttr attrs "rel" = some "noopener noreferrer" ∧
        lookupAttr attrs "target" = some "_blank" ∧
        ∀ u, lookupAttr attrs "href" = some u → hrefAllowed u = true) :=
  ⟨textContent_sanitize x, elems_sanitize_ok x⟩

theorem c9_witness :
    ("span", ([] : List (String × String))) ∈ elemsOf (sanitizeRichText c9Input) ∧
    allowedTags.contains "span" = true ∧
    textContent (sanitizeRichText c9Input) = textContent c9Input :=
  ⟨by decide, ((c9_sanitize_allowlist c9Input).2 "span" [] (by decide)).1,
    (c9_sanitize_allowlist c9Input).1⟩

theorem updateMessage_bumps_published (store : List StoredMsg) (uid id : String)
    (now : Int) (req : PatchReq) (s' : List StoredMsg) (m' msg : StoredMsg)
    (hfind : findById store id = some msg) (hdraft : msg.isDraft = false)
    (hcont : req.content.isSome = true)
    (h : updateMessage store (some uid) id now req = .ok (s', m')) :
    m'.__v = msg.__v + 1 := by
  obtain ⟨rc, rp, rd⟩ := req
  obtain ⟨c, rfl⟩ := Option.isSome_iff_exists.mp hcont
  simp only [updateMessage, hfind, hdraft] at h
  split at h
  · simp at h
  · split at h
    · simp at h
    · split at h
      · simp at h
      · split at h
        · simp at h
        · split at h
          · split at h
            · simp at h
            · exact absurd (by decide : (!false) = true) (by assumption)
          · simp only [Except.ok.injEq, Prod.mk.injEq] at h
            obtain ⟨-, hm⟩ := h
            subst hm
            simp [bumpDocumentVersion, hdraft]

theorem updateMessage_keeps_draft_version (store : List StoredMsg) (uid id : String)
    (now : Int) (req : PatchReq) (s' : List StoredMsg) (m' msg : StoredMsg)
    (hfind : findById store id = some msg) (hdraft : msg.isDraft = true)
    (h : updateMessage store (some uid) id now req = .ok (s', m')) :
    m'.__v = msg.__v := by
  obtain ⟨rc, rp, rd⟩ := req
  simp only [updateMessage, hfind, hdraft, Bool.not_true, Bool.and_false, Bool.and_true,
    Bool.false_and, Bool.false_eq_true, if_false] at h
  repeat' split at h
  all_goals
    first
    | (simp only [Except.ok.injEq, Prod.mk.injEq] at h
       obtain ⟨-, hm⟩ := h
       subst hm
       simp [bumpDocumentVersion])
    | simp at h

theorem createMessage_ok_fields (channels : List String) (store : List StoredMsg)
    (user : Option (String × String)) (newId : String) (now : Int) (req : CreateReq)
    (s' : List StoredMsg) (m' : StoredMsg)
    (h : createMessage channels store user newId now req = .ok (s', m')) :
    m'.__v = 0 ∧ m'.isDraft = req.isDraft.getD false ∧ s' = store ++ [m'] := by
  unfold createMessage at h
  cases user with
  | none => simp at h
  | some u =>
    obtain ⟨uid, uname⟩ := u
    repeat' split at h
    all_goals
      first
      | (simp only [Except.ok.injEq, Prod.mk.injEq] at h
         obtain ⟨hs, hm⟩ := h
         subst hm
         subst hs
         exact ⟨rfl, rfl, rfl⟩)
      | simp at h

theorem createMessage_reply_ok (channels : List String) (store : List StoredMsg)
    (uid uname newId : String) (now : Int) (req : CreateReq) (pid : String) (p : StoredMsg)
    (hreq : req.parentMessageId = some pid)
    (hp : findById store pid = some p)
    (hchan : p.channel = req.channelId)
    (hnotorph : p.isOrphaned = false)
    (hcont : isRichTextEmpty req.content = false)
    (hchanex : channels.contains req.channelId = true) :
    ∃ m : StoredMsg,
      createMessage channels store (some (uid, uname)) newId now req =
        .ok (store ++ [m], m) ∧
      m.parentMessage = some p._id ∧ m.isDraft = req.isDraft.getD false ∧
      m.channel = req.channelId ∧ m.__v = 0 := by
  refine ⟨{ _id := newId, channel := req.channelId, parentMessage := some p._id,
            authorId := some uid, author := uname,
            content := sanitizeRichText req.content,
            isDraft := req.isDraft.getD false, isOrphaned := false,
            createdAt := now, __v := 0 }, ?_, rfl, rfl, rfl, rfl⟩
  simp [createMessage, hreq, hp, hcont, hchanex, hchan, hnotorph]
  simpa using hchanex

/-- C2: the version counter increments by exactly 1 on every successful
update that supplies new content to a published message; any successful
update of a draft (content edit, draft-to-published transition, or both)
leaves the version unchanged; and a freshly created message starts at
version 0, so `__v` counts exactly the post-publication content edits. -/
theorem c2_version_discipline :
    (∀ (store : List StoredMsg) (uid id : String) (now : Int) (req : PatchReq)
       (s' : List StoredMsg) (m' msg : StoredMsg),
       findById store id = some msg → msg.isDraft = false →
       req.content.isSome = true →
       updateMessage store (some uid) id now req = .ok (s', m') →
       m'.__v = msg.__v + 1) ∧
    (∀ (store : List StoredMsg) (uid id : String) (now : Int) (req : PatchReq)
       (s' : List StoredMsg) (m' msg : StoredMsg),
       findById store id = some msg → msg.isDraft = true →
       updateMessage store (some uid) id now req = .ok (s', m') →
       m'.__v = msg.__v) ∧
    (∀ (channels : List String) (store : List StoredMsg)
       (user : Option (String × String)) (newId : String) (now : Int)
       (req : CreateReq) (s' : List StoredMsg) (m' : StoredMsg),
       createMessage channels store user newId now req = .ok (s', m') →
       m'.__v = 0) :=
  ⟨fun store uid id now req s' m' msg hfind hdraft hcont h =>
     updateMessage_bumps_published store uid id now req s' m' msg hfind hdraft hcont h,
   fun store uid id now req s' m' msg hfind hdraft h =>
     updateMessage_keeps_draft_version store uid id now req s' m' msg hfind hdraft h,
   fun channels store user newId now req s' m' h =>
     (createMessage_ok_fields channels store user newId now req s' m' h).1⟩

theorem c2_witness :
    updateMessage c2Store (some "u1") "m1" 300 c2ReqEdit =
        .ok ([c2Msg1Edited, c2Msg2], c2Msg1Edited) ∧
    c2Msg1Edited.__v = c2Msg1.__v + 1 ∧
    updateMessage c2Store (some "u1") "m2" 300 c2ReqEdit =
        .ok ([c2Msg1, c2Msg2Edited], c2Msg2Edited) ∧
    c2Msg2Edited.__v = c2Msg2.__v ∧
    createMessage ["ch1"] c2Store (some ("u1", "alice")) "m9" 400 c2CreateReq =
        .ok (c2Store ++ [c2Created], c2Created) ∧
    c2Created.__v = 0 :=
  ⟨rfl,
   c2_version_discipline.1 c2Store "u1" "m1" 300 c2ReqEdit [c2Msg1Edited, c2Msg2]
     c2Msg1Edited c2Msg1 (by decide) (by decide) (by decide) rfl,
   rfl,
   c2_version_discipline.2.1 c2Store "u1" "m2" 300 c2ReqEdit [c2Msg1, c2Msg2Edited]
     c2Msg2Edited c2Msg2 (by decide) (by decide) rfl,
   rfl,
   c2_version_discipline.2.2 ["ch1"] c2Store (some ("u1", "alice")) "m9" 400 c2CreateReq
     (c2Store ++ [c2Created]) c2Created rfl⟩

/-- C3: publishing a draft whose preconditions hold (author calls, draft not
orphaned, parent — if any — present and not orphaned) succeeds, clears
`isDraft`, resets `createdAt` to the publication instant (strictly after the
draft-creation time, the clock being monotone) and leaves `__v` unchanged. -/
theorem c3_publish_draft (store : List StoredMsg) (uid id : String) (now : Int)
    (req : PatchReq) (msg : StoredMsg)
    (hfind : findById store id = some msg)
    (hauthor : msg.authorId = some uid)
    (hdraft : msg.isDraft = true)
    (hnotorph : msg.isOrphaned = false)
    (hparent : msg.parentMessage = none ∨
      ∃ pid p, msg.parentMessage = some pid ∧ findById store pid = some p ∧
        p.isOrphaned = false)
    (hpub : req.publish = some true)
    (hcontent : ∀ c, req.content = some c → isRichTextEmpty c = false)
    (htime : msg.createdAt < now) :
    ∃ s' m', updateMessage store (some uid) id now req = .ok (s', m') ∧
      m'.isDraft = false ∧ m'.createdAt = now ∧ msg.createdAt < m'.createdAt ∧
      m'.__v = msg.__v := by
  obtain ⟨rc, rp, rd⟩ := req
  have hrp : rp = some true := hpub
  subst hrp
  cases rc with
  | none =>
    rcases hparent with hpm | ⟨pid, p, hpm, hfp, hporph⟩
    · refine ⟨updateById store id { msg with isDraft := false, createdAt := now },
        { msg with isDraft := false, createdAt := now }, ?_, rfl, rfl, htime, rfl⟩
      simp [updateMessage, hfind, hauthor, hdraft, hnotorph, hpm]
    · refine ⟨updateById store id { msg with isDraft := false, createdAt := now },
        { msg with isDraft := false, createdAt := now }, ?_, rfl, rfl, htime, rfl⟩
      simp [updateMessage, hfind, hauthor, hdraft, hnotorph, hpm, hfp, hporph]
  | some c =>
    have hc : isRichTextEmpty c = false := hcontent c rfl
    rcases hparent with hpm | ⟨pid, p, hpm, hfp, hporph⟩
    · refine ⟨updateById store id
          { msg with content := sanitizeRichText c, isDraft := false, createdAt := now },
        { msg with content := sanitizeRichText c, isDraft := false, createdAt := now },
        ?_, rfl, rfl, htime, rfl⟩
      simp [updateMessage, hfind, hauthor, hdraft, hnotorph, hpm, hc]
    · refine ⟨updateById store id
          { msg with content := sanitizeRichText c, isDraft := false, createdAt := now },
        { msg with content := sanitizeRichText c, isDraft := false, createdAt := now },
        ?_, rfl, rfl, htime, rfl⟩
      simp [updateMessage, hfind, hauthor, hdraft, hnotorph, hpm, hfp, hporph, hc]

theorem c3_witness :
    ∃ s' m', updateMessage c3Store (some "u1") "d1" 500 c3ReqPub = .ok (s', m') ∧
      m'.isDraft = false ∧ m'.createdAt = 500 ∧ c3Draft.createdAt < m'.createdAt ∧
      m'.__v = c3Draft.__v :=
  c3_publish_draft c3Store "u1" "d1" 500 c3ReqPub c3Draft (by decide) (by decide)
    (by decide) (by decide)
    (Or.inr ⟨"p1", c3Parent, by decide, by decide, by decide⟩) rfl
    (fun c hc => by simp [c3ReqPub] at hc) (by decide)

/-- C4: a publish attempt fails with a 400 conflict response — leaving the
store untouched, since every error path of the handler returns before
`save()` — whenever the target is already published, the target itself is
orphaned, or its parent is missing or orphaned; it never silently
publishes in those situations. -/
theorem c4_publish_conflict (store : List StoredMsg) (uid id : String) (now : Int)
    (req : PatchReq) (msg : StoredMsg)
    (hfind : findById store id = some msg)
    (hauthor : msg.authorId = some uid)
    (hpub : req.publish = some true)
    (hcontent : ∀ c, req.content = some c → isRichTextEmpty c = false)
    (hbad : msg.isDraft = false ∨ msg.isOrphaned = true ∨
      (∃ pid, msg.parentMessage = some pid ∧
        (findById store pid = none ∨
         ∃ p, findById store pid = some p ∧ p.isOrphaned = true))) :
    ∃ e, updateMessage store (some uid) id now req = .error e ∧ e.status = 400 ∧
      (e.msg = "Published messages cannot be reverted to drafts" ∨
       e.msg = "Message is already published" ∨
       e.msg = "Cannot publish a reply to an orphaned message") := by
  obtain ⟨rc, rp, rd⟩ := req
  have hrp : rp = some true := hpub
  subst hrp
  have hcont : (Option.map isRichTextEmpty rc).getD false = false := by
    cases rc with
    | none => rfl
    | some c => simpa using hcontent c rfl
  cases hd : msg.isDraft with
  | false =>
    by_cases hrd : (rd == some true) = true
    · refine ⟨⟨400, "Published messages cannot be reverted to drafts"⟩, ?_, rfl, Or.inl rfl⟩
      simp [updateMessage, hfind, hauthor, hd, hrd, hcont]
    · refine ⟨⟨400, "Message is already published"⟩, ?_, rfl, Or.inr (Or.inl rfl)⟩
      simp at hrd
      simp [updateMessage, hfind, hauthor, hd, hrd, hcont]
  | true =>
    rcases hbad with hbad | hbad | ⟨pid, hpm, hbadp⟩
    · exact absurd hd (by simp [hbad])
    · refine ⟨⟨400, "Cannot publish a reply to an orphaned message"⟩, ?_, rfl,
        Or.inr (Or.inr rfl)⟩
      simp [updateMessage, hfind, hauthor, hd, hbad, hcont]
    · cases ho : msg.isOrphaned with
      | true =>
        refine ⟨⟨400, "Cannot publish a reply to an orphaned message"⟩, ?_, rfl,
          Or.inr (Or.inr rfl)⟩
        simp [updateMessage, hfind, hauthor, hd, ho, hcont]
      | false =>
        rcases hbadp with hfp | ⟨p, hfp, hporph⟩
        · refine ⟨⟨400, "Cannot publish a reply to an orphaned message"⟩, ?_, rfl,
            Or.inr (Or.inr rfl)⟩
          simp [updateMessage, hfind, hauthor, hd, ho, hpm, hfp, hcont]
        · refine ⟨⟨400, "Cannot publish a reply to an orphaned message"⟩, ?_, rfl,
            Or.inr (Or.inr rfl)⟩
          simp [updateMessage, hfind, hauthor, hd, ho, hpm, hfp, hporph, hcont]

theorem c4_witness :
    ∃ e, updateMessage [c4Published] (some "u1") "q1" 900 c4ReqPub = .error e ∧
      e.status = 400 ∧
      (e.msg = "Published messages cannot be reverted to drafts" ∨
       e.msg = "Message is already published" ∨
       e.msg = "Cannot publish a reply to an orphaned message") :=
  c4_publish_conflict [c4Published] "u1" "q1" 900 c4ReqPub c4Published (by decide)
    (by decide) rfl (fun c hc => by simp [c4ReqPub] at hc) (Or.inl (by decide))

theorem erasePFirst {α : Type} (p : α → Bool) :
    ∀ (as : List α) (b : α) (bs : List α), (∀ a ∈ as, p a = false) → p b = true →
      (as ++ b :: bs).eraseP p = as ++ bs := by
  intro as
  induction as with
  | nil => intro b bs _ hb; simp [List.eraseP_cons, hb]
  | cons a as ih =>
    intro b bs hall hb
    have ha : p a = false := hall a (by simp)
    simp [List.eraseP_cons, ha, ih b bs (fun x hx => hall x (by simp [hx])) hb]

theorem deleteMessage_not_found (store : List StoredMsg) (uid id : String)
    (h : findById store id = none) :
    deleteMessage store (some uid) id = .error ⟨404, "Message not found"⟩ := by
  simp [deleteMessage, h]

theorem deleteMessage_forbidden (store : List StoredMsg) (uid id : String)
    (msg : StoredMsg) (hfind : findById store id = some msg)
    (hne : msg.authorId ≠ some uid) :
    deleteMessage store (some uid) id =
      .error ⟨403, "You can only delete your own messages"⟩ := by
  have hb : (msg.authorId != some uid) = true := by simpa [bne_iff_ne] using hne
  simp [deleteMessage, hfind, hb]

theorem deleteMessage_ok_spec (store : List StoredMsg) (uid id : String) (msg : StoredMsg)
    (hnd : (store.map (fun m => m._id)).Nodup)
    (hfind : findById store id = some msg)
    (hauthor : msg.authorId = some uid) :
    ∃ s', deleteMessage store (some uid) id = .ok (s', msg._id) ∧
      (∀ y ∈ s', y._id ≠ msg._id) ∧
      (∀ x ∈ store, x._id ≠ msg._id →
        (x.parentMessage = some msg._id → { x with isOrphaned := true } ∈ s') ∧
        (x.parentMessage ≠ some msg._id → x ∈ s')) ∧
      (∀ y ∈ s', ∃ x, x ∈ store ∧
        (y = x ∨ (x.parentMessage = some msg._id ∧ y = { x with isOrphaned := true }))) := by
  obtain ⟨hpmsg, as, bs, hsplit, hall⟩ := List.find?_eq_some.mp hfind
  have hid : msg._id = id := by simpa using hpmsg
  subst hsplit
  have hallf : ∀ a ∈ as, (a._id == msg._id) = false := by
    intro a ha
    have h1 := hall a ha
    rw [hid]
    simpa using h1
  have herase : (as ++ msg :: bs).eraseP (fun x => x._id == msg._id) = as ++ bs :=
    erasePFirst _ as msg bs hallf (by simp)
  have hnotbs : ∀ x ∈ bs, x._id ≠ msg._id := by
    intro x hx heq
    have h1 : ((as ++ msg :: bs).map (fun m => m._id)).Nodup := hnd
    rw [List.map_append, List.map_cons] at h1
    have h2 := h1.of_append_right
    rw [List.nodup_cons] at h2
    exact h2.1 (heq ▸ List.mem_map_of_mem (fun m => m._id) hx)
  refine ⟨(as ++ bs).map
      (fun x => if x.parentMessage == some msg._id then { x with isOrphaned := true } else x),
    ?_, ?_, ?_, ?_⟩
  · have h0 : deleteMessage (as ++ msg :: bs) (some uid) id =
        .ok (((as ++ msg :: bs).eraseP (fun x => x._id == msg._id)).map
          (fun x => if x.parentMessage == some msg._id then { x with isOrphaned := true }
            else x), msg._id) := by
      simp [deleteMessage, hfind, hauthor]
    rw [herase] at h0
    exact h0
  · intro y hy
    obtain ⟨x, hx, hxy⟩ := List.mem_map.mp hy
    have hxid : x._id ≠ msg._id := by
      rcases List.mem_append.mp hx with h | h
      · simpa using hallf x h
      · exact hnotbs x h
    subst hxy
    by_cases hc : (x.parentMessage == some msg._id) = true <;> simp [hc, hxid]
  · intro x hx hxid
    have hx' : x ∈ as ++ bs := by
      rcases List.mem_append.mp hx with h | h
      · exact List.mem_append.mpr (Or.inl h)
      · rcases List.mem_cons.mp h with h | h
        · exact absurd (congrArg (fun m => m._id) h) (by simpa using hxid)
        · exact List.mem_append.mpr (Or.inr h)
    constructor
    · intro hpar
      have hcond : (x.parentMessage == some msg._id) = true := by simp [hpar]
      have hm := List.mem_map_of_mem
        (fun x => if x.parentMessage == some msg._id then { x with isOrphaned := true }
          else x) hx'
      simpa [hcond] using hm
    · intro hpar
      have hcond : (x.parentMessage == some msg._id) = false := by simpa using hpar
      have hm := List.mem_map_of_mem
        (fun x => if x.parentMessage == some msg._id then { x with isOrphaned := true }
          else x) hx'
      simpa [hcond] using hm
  · intro y hy
    obtain ⟨x, hx, hxy⟩ := List.mem_map.mp hy
    have hxs : x ∈ as ++ msg :: bs := by
      rcases List.mem_append.mp hx with h | h
      · exact List.mem_append.mpr (Or.inl h)
      · exact List.mem_append.mpr (Or.inr (List.mem_cons_of_mem _ h))
    refine ⟨x, hxs, ?_⟩
    subst hxy
    by_cases hc : (x.parentMessage == some msg._id) = true
    · exact Or.inr ⟨by simpa using hc, by simp [hc]⟩
    · exact Or.inl (by simp [hc])

/-- C5: an author's delete removes the record outright (no record with its
id survives), flips `isOrphaned` on exactly the direct children while
leaving their other fields verbatim, touches nothing else (the result store
contains only original records, possibly orphan-flagged direct children),
rejects a non-author with 403 and an unknown id with 404, in both cases
without side effects.  Store ids are assumed distinct (Mongo's unique
`_id` index). -/
theorem c5_delete_orphans :
    (∀ (store : List StoredMsg) (uid id : String), findById store id = none →
      deleteMessage store (some uid) id = .error ⟨404, "Message not found"⟩) ∧
    (∀ (store : List StoredMsg) (uid id : String) (msg : StoredMsg),
      findById store id = some msg → msg.authorId ≠ some uid →
      deleteMessage store (some uid) id =
        .error ⟨403, "You can only delete your own messages"⟩) ∧
    (∀ (store : List StoredMsg) (uid id : String) (msg : StoredMsg),
      (store.map (fun m => m._id)).Nodup →
      findById store id = some msg → msg.authorId = some uid →
      ∃ s', deleteMessage store (some uid) id = .ok (s', msg._id) ∧
        (∀ y ∈ s', y._id ≠ msg._id) ∧
        (∀ x ∈ store, x._id ≠ msg._id →
          (x.parentMessage = some msg._id → { x with isOrphaned := true } ∈ s') ∧
          (x.parentMessage ≠ some msg._id → x ∈ s')) ∧
        (∀ y ∈ s', ∃ x, x ∈ store ∧
          (y = x ∨ (x.parentMessage = some msg._id ∧
            y = { x with isOrphaned := true })))) :=
  ⟨fun store uid id h => deleteMessage_not_found store uid id h,
   fun store uid id msg hfind hne => deleteMessage_forbidden store uid id msg hfind hne,
   fun store uid id msg hnd hfind hauthor =>
     deleteMessage_ok_spec store uid id msg hnd hfind hauthor⟩

theorem c5_witness :
    (∃ s', deleteMessage c5Store (some "u1") "r1" = .ok (s', c5Root._id) ∧
      (∀ y ∈ s', y._id ≠ c5Root._id) ∧
      (∀ x ∈ c5Store, x._id ≠ c5Root._id →
        (x.parentMessage = some c5Root._id → { x with isOrphaned := true } ∈ s') ∧
        (x.parentMessage ≠ some c5Root._id → x ∈ s')) ∧
      (∀ y ∈ s', ∃ x, x ∈ c5Store ∧
        (y = x ∨ (x.parentMessage = some c5Root._id ∧
          y = { x with isOrphaned := true })))) ∧
    deleteMessage c5Store (some "u9") "zz" = .error ⟨404, "Message not found"⟩ ∧
    deleteMessage c5Store (some "u9") "r1" =
      .error ⟨403, "You can only delete your own messages"⟩ :=
  ⟨c5_delete_orphans.2.2 c5Store "u1" "r1" c5Root (by decide) (by decide) (by decide),
   c5_delete_orphans.1 c5Store "u9" "zz" (by decide),
   c5_delete_orphans.2.1 c5Store "u9" "r1" c5Root (by decide) (by decide)⟩

/-- C7: the listing endpoint returns every published message of the
requested channel to any viewer; a draft is returned exactly when
`includeDrafts` is set and the viewer is the draft's author (never another
author's draft); and `includeDrafts` from an unauthenticated caller is
rejected with 401. -/
theorem c7_visibility :
    (∀ (store : List StoredMsg) (channelId : Option String),
      listMessages store none channelId true =
        .error ⟨401, "Authentication required to include drafts"⟩) ∧
    (∀ (store : List StoredMsg) (user : Option String) (channelId : Option String)
       (includeDrafts : Bool) (l : List StoredMsg) (m : StoredMsg),
      listMessages store user channelId includeDrafts = .ok l →
      (m ∈ l ↔ m ∈ store ∧ channelMatches channelId m = true ∧
        (m.isDraft = false ∨
         (includeDrafts = true ∧ user ≠ none ∧ m.authorId = user)))) := by
  constructor
  · intro store channelId
    simp [listMessages]
  · intro store user channelId includeDrafts l m h
    cases user with
    | none =>
      cases includeDrafts with
      | true => simp [listMessages] at h
      | false =>
        simp only [listMessages, Bool.false_and, Bool.and_false, Bool.false_eq_true,
          if_false, Option.isNone_none, Except.ok.injEq] at h
        subst h
        rw [(List.perm_insertionSort msgLE _).mem_iff, List.mem_filter]
        by_cases hmd : m.isDraft = true <;> simp [hmd, Bool.not_eq_true', and_assoc]
    | some uid =>
      cases includeDrafts with
      | false =>
        simp only [listMessages, Bool.false_and, Bool.and_false, Bool.false_eq_true,
          if_false, Except.ok.injEq] at h
        subst h
        rw [(List.perm_insertionSort msgLE _).mem_iff, List.mem_filter]
        by_cases hmd : m.isDraft = true <;> simp [hmd, Bool.not_eq_true', and_assoc]
      | true =>
        simp only [listMessages, Option.isNone_some, Bool.and_false, Bool.false_eq_true,
          if_false, Except.ok.injEq] at h
        subst h
        rw [(List.perm_insertionSort msgLE _).mem_iff, List.mem_filter]
        by_cases hmd : m.isDraft = true <;>
          simp [hmd, Bool.not_eq_true', and_assoc]

theorem c7_witness :
    listMessages c7Store (some "u1") (some "ch1") true = .ok [c7Pub, c7OwnDraft] ∧
    (c7OwnDraft ∈ [c7Pub, c7OwnDraft] ↔ c7OwnDraft ∈ c7Store ∧
      channelMatches (some "ch1") c7OwnDraft = true ∧
      (c7OwnDraft.isDraft = false ∨
        (true = true ∧ (some "u1" : Option String) ≠ none ∧
          c7OwnDraft.authorId = some "u1"))) ∧
    listMessages c7Store none (some "ch1") true =
      .error ⟨401, "Authentication required to include drafts"⟩ :=
  ⟨rfl,
   c7_visibility.2 c7Store (some "u1") (some "ch1") true [c7Pub, c7OwnDraft] c7OwnDraft rfl,
   c7_visibility.1 c7Store (some "ch1")⟩

/-- C10: creating a reply only requires the parent to exist in the same
channel and not be orphaned — the parent's `isDraft` flag is never
inspected — so the creation succeeds and records the parent even when the
parent is an unpublished draft, allowing a published reply whose parent is
a draft invisible to other viewers. -/
theorem c10_draft_parent_reply (channels : List String) (store : List StoredMsg)
    (uid uname newId : String) (now : Int) (req : CreateReq) (pid : String)
    (p : StoredMsg)
    (hreq : req.parentMessageId = some pid)
    (hp : findById store pid = some p)
    (hchan : p.channel = req.channelId)
    (hnotorph : p.isOrphaned = false)
    (hcont : isRichTextEmpty req.content = false)
    (hchanex : channels.contains req.channelId = true) :
    ∃ m : StoredMsg,
      createMessage channels store (some (uid, uname)) newId now req =
        .ok (store ++ [m], m) ∧
      m.parentMessage = some p._id ∧ m.isDraft = req.isDraft.getD false ∧
      m.channel = req.channelId ∧ m.__v = 0 :=
  createMessage_reply_ok channels store uid uname newId now req pid p hreq hp hchan
    hnotorph hcont hchanex

theorem c10_witness :
    c10DraftParent.isDraft = true ∧
    (∃ m : StoredMsg,
      createMessage ["ch1"] [c10DraftParent] (some ("u1", "alice")) "n1" 99 c10Req =
        .ok ([c10DraftParent] ++ [m], m) ∧
      m.parentMessage = some c10DraftParent._id ∧
      m.isDraft = c10Req.isDraft.getD false ∧
      m.channel = c10Req.channelId ∧ m.__v = 0) :=
  ⟨by decide,
   c10_draft_parent_reply ["ch1"] [c10DraftParent] "u1" "alice" "n1" 99 c10Req "pp1"
     c10DraftParent rfl (by decide) (by decide) (by decide) (by decide) (by decide)⟩

theorem mapGet_cons (e : String × List CMsg) (m : ChildMap) (k : String) :
    mapGet (e :: m) k = if e.1 == k then some e.2 else mapGet m k := by
  by_cases h : (e.1 == k) = true <;> simp [mapGet, List.find?_cons, h]

theorem mapGet_mapSet_self (m : ChildMap) (k : String) (v : List CMsg) :
    mapGet (mapSet m k v) k = some v := by
  induction m with
  | nil => simp [mapSet, mapGet_cons]
  | cons e es ih =>
    by_cases he : (e.1 == k) = true
    · simp [mapSet, he, mapGet_cons]
    · simp [mapSet, he, mapGet_cons, ih]

theorem mapGet_mapSet_ne (m : ChildMap) (k : String) (v : List CMsg) (k' : String)
    (h : k' ≠ k) : mapGet (mapSet m k v) k' = mapGet m k' := by
  have hkk' : ¬(k = k') := fun hx => h hx.symm
  induction m with
  | nil => simp [mapSet, mapGet_cons, hkk', mapGet]
  | cons e es ih =>
    by_cases he : (e.1 == k) = true
    · have he' : e.1 = k := by simpa using he
      rw [mapSet]
      simp only [he, if_true]
      rw [mapGet_cons, mapGet_cons]
      have h1 : (k == k') = false := by simp [hkk']
      have h2 : (e.1 == k') = false := by simp [he', hkk']
      simp [h1, h2]
    · rw [mapSet]
      simp only [he, if_false, Bool.false_eq_true]
      rw [mapGet_cons, mapGet_cons, ih]

theorem mapGet_mapDelete_ne (m : ChildMap) (k k' : String) (h : k' ≠ k) :
    mapGet (mapDelete m k) k' = mapGet m k' := by
  have hkk' : ¬(k = k') := fun hx => h hx.symm
  induction m with
  | nil => rfl
  | cons e es ih =>
    by_cases he : (e.1 == k) = true
    · have he' : e.1 = k := by simpa using he
      have h2 : (e.1 == k') = false := by simp [he', hkk']
      have hb : (e.1 != k) = false := by simp [he']
      rw [mapDelete, List.filter_cons, hb]
      simp only [Bool.false_eq_true, if_false]
      rw [show List.filter (fun e => e.1 != k) es = mapDelete es k from rfl, ih, mapGet_cons]
      simp [h2]
    · have hb : (e.1 != k) = true := by simpa using he
      rw [mapDelete, List.filter_cons, hb]
      simp only [if_true]
      rw [mapGet_cons, mapGet_cons]
      rw [show List.filter (fun e => e.1 != k) es = mapDelete es k from rfl, ih]

theorem mem_mapSet (m : ChildMap) (k : String) (v : List CMsg) (e : String × List CMsg)
    (h : e ∈ mapSet m k v) : e ∈ m ∨ e = (k, v) := by
  induction m with
  | nil => simpa [mapSet] using h
  | cons e' es ih =>
    by_cases he : (e'.1 == k) = true
    · simp only [mapSet, he, if_true] at h
      rcases List.mem_cons.mp h with h | h
      · exact Or.inr h
      · exact Or.inl (List.mem_cons_of_mem _ h)
    · simp only [mapSet, he, if_false, Bool.false_eq_true] at h
      rcases List.mem_cons.mp h with h | h
      · exact Or.inl (h ▸ List.mem_cons_self e' es)
      · rcases ih h with h | h
        · exact Or.inl (List.mem_cons_of_mem _ h)
        · exact Or.inr h

theorem keys_mem_mapSet (m : ChildMap) (k : String) (v : List CMsg) (k' : String)
    (h : k' ∈ (mapSet m k v).map (fun e => e.1)) :
    k' ∈ m.map (fun e => e.1) ∨ k' = k := by
  obtain ⟨e, he, hk⟩ := List.mem_map.mp h
  rcases mem_mapSet m k v e he with h1 | h1
  · exact Or.inl (hk ▸ List.mem_map_of_mem _ h1)
  · subst h1
    exact Or.inr hk.symm

theorem nodup_keys_mapSet (m : ChildMap) (k : String) (v : List CMsg)
    (h : (m.map (fun e => e.1)).Nodup) : ((mapSet m k v).map (fun e => e.1)).Nodup := by
  induction m with
  | nil => simp [mapSet]
  | cons e es ih =>
    rw [List.map_cons, List.nodup_cons] at h
    by_cases he : (e.1 == k) = true
    · have he' : e.1 = k := by simpa using he
      simp only [mapSet, he, if_true, List.map_cons, List.nodup_cons]
      exact ⟨he' ▸ h.1, h.2⟩
    · simp only [mapSet, he, if_false, Bool.false_eq_true, List.map_cons, List.nodup_cons]
      refine ⟨fun hmem => ?_, ih h.2⟩
      rcases keys_mem_mapSet es k v e.1 hmem with h1 | h1
      · exact h.1 h1
      · exact absurd (by simp [h1] : (e.1 == k) = true) he

theorem foldl_childEntriesStep_get (l : List CMsg) : ∀ (acc : ChildMap) (p : String),
    mapGet (l.foldl childEntriesStep acc) p =
      if (l.filter (fun m => m.parentMessage == some p)).isEmpty then mapGet acc p
      else some ((mapGet acc p).getD [] ++
        l.filter (fun m => m.parentMessage == some p)) := by
  induction l with
  | nil => intro acc p; simp
  | cons m rest ih =>
    intro acc p
    cases hm : m.parentMessage with
    | none =>
      rw [List.foldl_cons]
      rw [show childEntriesStep acc m = acc by simp [childEntriesStep, hm]]
      have hpred : (m.parentMessage == some p) = false := by simp [hm]
      simp only [List.filter_cons, hpred, Bool.false_eq_true, if_false]
      exact ih acc p
    | some q =>
      rw [List.foldl_cons]
      rw [show childEntriesStep acc m = mapSet acc q ((mapGet acc q).getD [] ++ [m]) by
        simp [childEntriesStep, hm]]
      by_cases hqp : q = p
      · subst hqp
        have hpred : (m.parentMessage == some q) = true := by simp [hm]
        simp only [List.filter_cons, hpred, if_true]
        rw [ih]
        rw [mapGet_mapSet_self]
        by_cases hre : (rest.filter (fun x => x.parentMessage == some q)).isEmpty = true
        · rw [List.isEmpty_iff] at hre
          simp [hre]
        · simp only [hre, Bool.false_eq_true, if_false, List.isEmpty_cons]
          simp [List.append_assoc]
      · have hpred : (m.parentMessage == some p) = false := by simp [hm, hqp]
        simp only [List.filter_cons, hpred, Bool.false_eq_true, if_false]
        rw [ih, mapGet_mapSet_ne acc q _ p (fun hx => hqp hx.symm)]

theorem foldl_childEntriesStep_nonempty (l : List CMsg) : ∀ (acc : ChildMap),
    (∀ e ∈ acc, e.2 ≠ []) → ∀ e ∈ l.foldl childEntriesStep acc, e.2 ≠ [] := by
  induction l with
  | nil => intro acc h; simpa using h
  | cons m rest ih =>
    intro acc h
    rw [List.foldl_cons]
    apply ih
    intro e he
    cases hm : m.parentMessage with
    | none => exact h e (by simpa [childEntriesStep, hm] using he)
    | some q =>
      rw [show childEntriesStep acc m = mapSet acc q ((mapGet acc q).getD [] ++ [m]) by
        simp [childEntriesStep, hm]] at he
      rcases mem_mapSet _ _ _ _ he with h1 | h1
      · exact h e h1
      · subst h1; simp

theorem foldl_childEntriesStep_keys (l : List CMsg) : ∀ (acc : ChildMap)
    (e : String × List CMsg), e ∈ l.foldl childEntriesStep acc →
    e ∈ acc ∨ ∃ m ∈ l, m.parentMessage = some e.1 := by
  induction l with
  | nil => intro acc e he; exact Or.inl (by simpa using he)
  | cons m rest ih =>
    intro acc e he
    rw [List.foldl_cons] at he
    rcases ih (childEntriesStep acc m) e he with h1 | ⟨m', hm', hp⟩
    · cases hm : m.parentMessage with
      | none => exact Or.inl (by simpa [childEntriesStep, hm] using h1)
      | some q =>
        rw [show childEntriesStep acc m = mapSet acc q ((mapGet acc q).getD [] ++ [m]) by
          simp [childEntriesStep, hm]] at h1
        rcases mem_mapSet _ _ _ _ h1 with h2 | h2
        · exact Or.inl h2
        · subst h2
          exact Or.inr ⟨m, by simp, hm⟩
    · exact Or.inr ⟨m', List.mem_cons_of_mem _ hm', hp⟩

theorem foldl_childEntriesStep_keys_nodup (l : List CMsg) : ∀ (acc : ChildMap),
    ((acc.map (fun e => e.1)).Nodup) →
    ((l.foldl childEntriesStep acc).map (fun e => e.1)).Nodup := by
  induction l with
  | nil => intro acc h; simpa using h
  | cons m rest ih =>
    intro acc h
    rw [List.foldl_cons]
    apply ih
    cases hm : m.parentMessage with
    | none => simpa [childEntriesStep, hm] using h
    | some q =>
      rw [show childEntriesStep acc m = mapSet acc q ((mapGet acc q).getD [] ++ [m]) by
        simp [childEntriesStep, hm]]
      exact nodup_keys_mapSet acc q _ h

theorem mapGet_mapVal (m : ChildMap) (f : List CMsg → List CMsg) (p : String) :
    mapGet (m.map (fun e => (e.1, f e.2))) p = (mapGet m p).map f := by
  induction m with
  | nil => rfl
  | cons e es ih =>
    rw [List.map_cons, mapGet_cons, mapGet_cons]
    by_cases he : (e.1 == p) = true <;> simp [he, ih]

theorem mapGet_buildChildrenMap (sorted : List CMsg) (p : String) :
    mapGet (buildChildrenMap sorted) p =
      if (sorted.filter (fun m => m.parentMessage == some p)).isEmpty then none
      else some (sortByCreatedAt
        (sorted.filter (fun m => m.parentMessage == some p))) := by
  unfold buildChildrenMap
  rw [mapGet_mapVal, foldl_childEntriesStep_get]
  by_cases hre : (sorted.filter (fun m => m.parentMessage == some p)).isEmpty = true <;>
    simp [hre, mapGet]

theorem mem_of_mapGet (m : ChildMap) (k : String) (v : List CMsg)
    (h : mapGet m k = some v) : (k, v) ∈ m := by
  unfold mapGet at h
  cases hf : m.find? (fun e => e.1 == k) with
  | none => rw [hf] at h; simp at h
  | some e =>
    rw [hf] at h
    simp only [Option.map_some'] at h
    have he := List.mem_of_find?_eq_some hf
    have hk : e.1 = k := by simpa using List.find?_some hf
    have hev : e = (k, v) := Prod.ext hk (by injection h)
    rwa [hev] at he

theorem mapGet_of_mem_nodup (m : ChildMap) (k : String) (v : List CMsg)
    (hnd : (m.map (fun e => e.1)).Nodup) (hm : (k, v) ∈ m) : mapGet m k = some v := by
  induction m with
  | nil => simp at hm
  | cons e es ih =>
    rw [List.map_cons, List.nodup_cons] at hnd
    rcases List.mem_cons.mp hm with h1 | h1
    · rw [← h1, mapGet_cons]
      simp
    · have hne : (e.1 == k) = false := by
        have : k ∈ es.map (fun e => e.1) := by
          exact List.mem_map.mpr ⟨(k, v), h1, rfl⟩
        by_cases hx : (e.1 == k) = true
        · exact absurd ((by simpa using hx : e.1 = k) ▸ this) hnd.1
        · simpa using hx
      rw [mapGet_cons]
      simp only [hne, Bool.false_eq_true, if_false]
      exact ih hnd.2 h1

theorem strHasPfx_refl_append (l t : List Char) : strHasPfx l (l ++ t) = true := by
  induction l with
  | nil => rfl
  | cons c cs ih => simp [strHasPfx, ih]

theorem strHasPfx_append_str (p s : String) : strHasPfx p.data (p ++ s).data = true := by
  rw [String.data_append]
  exact strHasPfx_refl_append p.data s.data

theorem pfx_append_ne (p t s : String) (h : strHasPfx p.data s.data = false) :
    p ++ t ≠ s := by
  intro he
  rw [← he] at h
  rw [strHasPfx_append_str] at h
  exact absurd h (by simp)

theorem str_append_left_cancel (p a b : String) (h : p ++ a = p ++ b) : a = b := by
  have hd := congrArg String.data h
  rw [String.data_append, String.data_append] at hd
  exact String.ext (List.append_cancel_left hd)

theorem foldl_placeholderStep_snd (es : ChildMap) : ∀ (cm : ChildMap) (phs : List CMsg),
    (es.foldl placeholderStep (cm, phs)).2 = phs ++ (es.map mkPlaceholderEntry).flatten := by
  induction es with
  | nil => intro cm phs; simp
  | cons e es ih =>
    intro cm phs
    cases he : e.2 with
    | nil =>
      rw [List.foldl_cons]
      rw [show placeholderStep (cm, phs) e = (mapDelete cm e.1, phs) by
        simp [placeholderStep, he]]
      simp [ih, mkPlaceholderEntry, he]
    | cons c0 cs =>
      rw [List.foldl_cons]
      rw [show placeholderStep (cm, phs) e =
          (mapDelete (mapSet cm ("placeholder-" ++ e.1) e.2) e.1,
            phs ++ [mkPlaceholder e.1 c0]) by simp [placeholderStep, he]]
      simp [ih, mkPlaceholderEntry, he]

theorem foldl_placeholderStep_get_preserved (es : ChildMap) : ∀ (cm : ChildMap)
    (phs : List CMsg) (k : String),
    (∀ e ∈ es, e.1 ≠ k ∧ ("placeholder-" ++ e.1) ≠ k) →
    mapGet ((es.foldl placeholderStep (cm, phs)).1) k = mapGet cm k := by
  induction es with
  | nil => intro cm phs k _; rfl
  | cons e es ih =>
    intro cm phs k hk
    have hke := hk e (by simp)
    rw [List.foldl_cons]
    cases he : e.2 with
    | nil =>
      rw [show placeholderStep (cm, phs) e = (mapDelete cm e.1, phs) by
        simp [placeholderStep, he]]
      rw [ih _ _ k (fun x hx => hk x (List.mem_cons_of_mem _ hx))]
      exact mapGet_mapDelete_ne cm e.1 k (fun hx => hke.1 hx.symm)
    | cons c0 cs =>
      rw [show placeholderStep (cm, phs) e =
          (mapDelete (mapSet cm ("placeholder-" ++ e.1) e.2) e.1,
            phs ++ [mkPlaceholder e.1 c0]) by simp [placeholderStep, he]]
      rw [ih _ _ k (fun x hx => hk x (List.mem_cons_of_mem _ hx))]
      rw [mapGet_mapDelete_ne _ e.1 k (fun hx => hke.1 hx.symm)]
      exact mapGet_mapSet_ne cm ("placeholder-" ++ e.1) e.2 k (fun hx => hke.2 hx.symm)

theorem foldl_placeholderStep_get_placeholder (es : ChildMap) : ∀ (cm : ChildMap)
    (phs : List CMsg) (pid : String) (children : List CMsg),
    ((es.map (fun e => e.1)).Nodup) →
    (∀ e ∈ es, strHasPfx "placeholder-".data e.1.data = false) →
    (pid, children) ∈ es → children ≠ [] →
    mapGet ((es.foldl placeholderStep (cm, phs)).1) ("placeholder-" ++ pid) =
      some children := by
  induction es with
  | nil => intro cm phs pid children _ _ hm; simp at hm
  | cons e es ih =>
    intro cm phs pid children hnd hpfx hm hne
    rw [List.map_cons, List.nodup_cons] at hnd
    rcases List.mem_cons.mp hm with h1 | h1
    · have he2 : e = (pid, children) := h1.symm
      subst he2
      cases hc : children with
      | nil => exact absurd hc hne
      | cons c0 cs =>
        subst hc
        rw [List.foldl_cons]
        rw [show placeholderStep (cm, phs) (pid, c0 :: cs) =
            (mapDelete (mapSet cm ("placeholder-" ++ pid) (c0 :: cs)) pid,
              phs ++ [mkPlaceholder pid c0]) from rfl]
        rw [foldl_placeholderStep_get_preserved es _ _ ("placeholder-" ++ pid) ?_]
        · rw [mapGet_mapDelete_ne _ pid ("placeholder-" ++ pid)
            (pfx_append_ne _ pid pid (hpfx (pid, c0 :: cs) (by simp)))]
          exact mapGet_mapSet_self cm ("placeholder-" ++ pid) (c0 :: cs)
        · intro x hx
          constructor
          · exact fun hx1 =>
              (pfx_append_ne _ pid x.1 (hpfx x (List.mem_cons_of_mem _ hx))) hx1.symm
          · intro hx1
            have : x.1 = pid := str_append_left_cancel "placeholder-" x.1 pid hx1
            exact hnd.1 (this ▸ List.mem_map_of_mem (fun e => e.1) hx)
    · rw [List.foldl_cons]
      exact ih _ _ pid children hnd.2
        (fun x hx => hpfx x (List.mem_cons_of_mem _ hx)) h1 hne

theorem placeholderEntries_filter_nil (es : ChildMap) (pid : String)
    (h : ∀ e ∈ es, e.1 ≠ pid) :
    ((es.map mkPlaceholderEntry).flatten).filter
      (fun x => x.placeholderFor == some pid) = [] := by
  induction es with
  | nil => rfl
  | cons e es ih =>
    rw [List.map_cons, List.flatten_cons, List.filter_append]
    rw [ih (fun x hx => h x (List.mem_cons_of_mem _ hx))]
    have hne : e.1 ≠ pid := h e (by simp)
    cases hc : e.2 with
    | nil => simp [mkPlaceholderEntry, hc]
    | cons c0 cs => simp [mkPlaceholderEntry, hc, mkPlaceholder, hne]

theorem placeholderEntries_filter (es : ChildMap) : ∀ (pid : String) (c0 : CMsg)
    (cs : List CMsg), ((es.map (fun e => e.1)).Nodup) → (pid, c0 :: cs) ∈ es →
    ((es.map mkPlaceholderEntry).flatten).filter
      (fun x => x.placeholderFor == some pid) = [mkPlaceholder pid c0] := by
  induction es with
  | nil => intro pid c0 cs _ hm; simp at hm
  | cons e es ih =>
    intro pid c0 cs hnd hm
    rw [List.map_cons, List.nodup_cons] at hnd
    rw [List.map_cons, List.flatten_cons, List.filter_append]
    rcases List.mem_cons.mp hm with h1 | h1
    · have he : e = (pid, c0 :: cs) := h1.symm
      subst he
      have hnil : ∀ x ∈ es, x.1 ≠ pid := by
        intro x hx hxe
        exact hnd.1 (hxe ▸ List.mem_map_of_mem (fun e => e.1) hx)
      rw [placeholderEntries_filter_nil es pid hnil]
      simp [mkPlaceholderEntry, mkPlaceholder]
    · have hne : e.1 ≠ pid := by
        intro hxe
        exact hnd.1 (hxe ▸ List.mem_map.mpr ⟨(pid, c0 :: cs), h1, rfl⟩)
      rw [ih pid c0 cs hnd.2 h1]
      cases hc : e.2 with
      | nil => simp [mkPlaceholderEntry, hc]
      | cons d0 ds => simp [mkPlaceholderEntry, hc, mkPlaceholder, hne]

theorem mem_placeholderEntries (es : ChildMap) : ∀ (ph : CMsg),
    ph ∈ (es.map mkPlaceholderEntry).flatten →
    ∃ e c0 cs, e ∈ es ∧ e.2 = c0 :: cs ∧ ph = mkPlaceholder e.1 c0 := by
  induction es with
  | nil => intro ph h; simp at h
  | cons e es ih =>
    intro ph h
    rw [List.map_cons, List.flatten_cons] at h
    rcases List.mem_append.mp h with h1 | h1
    · cases hc : e.2 with
      | nil => rw [mkPlaceholderEntry, hc] at h1; simp at h1
      | cons c0 cs =>
        rw [mkPlaceholderEntry, hc] at h1
        simp only [List.mem_singleton] at h1
        exact ⟨e, c0, cs, by simp, hc, h1⟩
    · obtain ⟨e', c0, cs, he', hc, hph⟩ := ih ph h1
      exact ⟨e', c0, cs, List.mem_cons_of_mem _ he', hc, hph⟩

theorem sortByCreatedAt_mem (l : List CMsg) (a : CMsg) :
    a ∈ sortByCreatedAt l ↔ a ∈ l :=
  (List.perm_insertionSort cMsgLE l).mem_iff

theorem sortByCreatedAt_ne_nil (l : List CMsg) (h : l ≠ []) : sortByCreatedAt l ≠ [] := by
  intro he
  have hp := List.perm_insertionSort cMsgLE l
  rw [show sortByCreatedAt l = List.insertionSort cMsgLE l from rfl] at he
  rw [he] at hp
  exact h (List.Perm.eq_nil hp.symm)

theorem sorted_sortByCreatedAt (l : List CMsg) :
    List.Sorted cMsgLE (sortByCreatedAt l) :=
  List.sorted_insertionSort cMsgLE l

theorem sortByCreatedAt_perm (l : List CMsg) : (sortByCreatedAt l).Perm l :=
  List.perm_insertionSort cMsgLE l

theorem keys_buildChildrenMap (sorted : List CMsg) :
    (buildChildrenMap sorted).map (fun e => e.1) =
      (sorted.foldl childEntriesStep []).map (fun e => e.1) := by
  unfold buildChildrenMap
  rw [List.map_map]
  rfl

theorem nodup_keys_buildChildrenMap (sorted : List CMsg) :
    ((buildChildrenMap sorted).map (fun e => e.1)).Nodup := by
  rw [keys_buildChildrenMap]
  exact foldl_childEntriesStep_keys_nodup sorted [] (by simp)

theorem nodup_keys_buildMissingParents (sorted : List CMsg) :
    ((buildMissingParents sorted).map (fun e => e.1)).Nodup := by
  unfold buildMissingParents
  exact List.Nodup.sublist (List.Sublist.map _ (List.filter_sublist _))
    (nodup_keys_buildChildrenMap sorted)

theorem mem_buildChildrenMap_props (sorted : List CMsg) (e : String × List CMsg)
    (he : e ∈ buildChildrenMap sorted) :
    e.2 ≠ [] ∧ ∃ m ∈ sorted, m.parentMessage = some e.1 := by
  unfold buildChildrenMap at he
  obtain ⟨e0, he0, hee⟩ := List.mem_map.mp he
  subst hee
  constructor
  · exact sortByCreatedAt_ne_nil _
      (foldl_childEntriesStep_nonempty sorted [] (by simp) e0 he0)
  · rcases foldl_childEntriesStep_keys sorted [] e0 he0 with h | h
    · simp at h
    · exact h

theorem mem_buildMissingParents_props (sorted : List CMsg) (e : String × List CMsg)
    (he : e ∈ buildMissingParents sorted) :
    e.2 ≠ [] ∧ (∃ m ∈ sorted, m.parentMessage = some e.1) ∧
      ∀ m ∈ sorted, m._id ≠ e.1 := by
  unfold buildMissingParents at he
  have h1 := List.of_mem_filter he
  have h2 := List.mem_of_mem_filter he
  obtain ⟨hne, hr⟩ := mem_buildChildrenMap_props sorted e h2
  refine ⟨hne, hr, ?_⟩
  intro m hm hid
  unfold isMissingParent at h1
  rw [Bool.not_eq_true'] at h1
  rw [List.any_eq_false] at h1
  exact absurd (by simp [hid]) (h1 m hm)

theorem pfx_free_buildMissingParents (msgs : List CMsg)
    (hpfx : msgs.all pfxFreeParent = true) :
    ∀ e ∈ buildMissingParents (sortByCreatedAt msgs),
      strHasPfx "placeholder-".data e.1.data = false := by
  intro e he
  obtain ⟨-, ⟨m, hm, hp⟩, -⟩ := mem_buildMissingParents_props _ e he
  have hmm : m ∈ msgs := (sortByCreatedAt_mem msgs m).mp hm
  have h1 := List.all_eq_true.mp hpfx m hmm
  unfold pfxFreeParent at h1
  rw [hp] at h1
  simpa using h1

theorem placeholderState_eq (msgs : List CMsg) : placeholderState msgs =
    (buildMissingParents (sortByCreatedAt msgs)).foldl placeholderStep
      (buildChildrenMap (sortByCreatedAt msgs), []) := rfl

/-- C1: whenever some message's `parentId` resolves to no message of the
visible set, the reconstruction pass synthesizes exactly one placeholder
root for that missing parent id — author label "Deleted message", content
"Message has been deleted", `createdAt` 1000 ms before the earliest
referencing child, `isPlaceholder` and `isOrphaned` set, `parentId` null —
whose re-keyed child list is exactly the set of children that referenced
the missing parent; and no placeholder is produced for a parent id that no
child references.  Parent ids are assumed not to start with the reserved
`placeholder-` prefix, which holds for every store-produced visible set
(ids are Mongo ObjectIds). -/
theorem c1_placeholder_synthesis (msgs : List CMsg) (pid : String)
    (href : msgs.any (fun c => c.parentMessage == some pid) = true)
    (hmiss : msgs.all (fun m => m._id != pid) = true)
    (hpfx : msgs.all pfxFreeParent = true) :
    (∃ ph c0 children,
      (placeholderState msgs).2.filter (fun x => x.placeholderFor == some pid) = [ph] ∧
      ph.author = "Deleted message" ∧ ph.content = "Message has been deleted" ∧
      ph.parentMessage = none ∧ ph.isPlaceholder = true ∧ ph.isOrphaned = true ∧
      ph.createdAt = c0.createdAt - 1000 ∧
      mapGet (placeholderState msgs).1 ph._id = some children ∧
      c0 ∈ children ∧ (∀ c ∈ children, c0.createdAt ≤ c.createdAt) ∧
      children.Perm (msgs.filter (fun c => c.parentMessage == some pid))) ∧
    (∀ ph ∈ (placeholderState msgs).2, ∃ q, ph.placeholderFor = some q ∧
      (∃ c ∈ msgs, c.parentMessage = some q) ∧ (∀ m ∈ msgs, m._id ≠ q)) := by
  have hfilter_ne :
      (sortByCreatedAt msgs).filter (fun m => m.parentMessage == some pid) ≠ [] := by
    obtain ⟨c, hc, hcp⟩ := List.any_eq_true.mp href
    intro he
    have hcin : c ∈ (sortByCreatedAt msgs).filter
        (fun m => m.parentMessage == some pid) :=
      List.mem_filter.mpr ⟨(sortByCreatedAt_mem msgs c).mpr hc, hcp⟩
    rw [he] at hcin
    simp at hcin
  set bucket := sortByCreatedAt
    ((sortByCreatedAt msgs).filter (fun m => m.parentMessage == some pid)) with hbdef
  have hempty : ((sortByCreatedAt msgs).filter
      (fun m => m.parentMessage == some pid)).isEmpty = false := by
    rw [Bool.eq_false_iff]
    intro hx
    exact hfilter_ne (List.isEmpty_iff.mp hx)
  have hget : mapGet (buildChildrenMap (sortByCreatedAt msgs)) pid = some bucket := by
    rw [mapGet_buildChildrenMap, hempty]
    simp [hbdef]
  have hcm : (pid, bucket) ∈ buildChildrenMap (sortByCreatedAt msgs) :=
    mem_of_mapGet _ _ _ hget
  have hmiss' : ∀ m ∈ sortByCreatedAt msgs, (m._id == pid) = false := by
    intro m hm
    have h1 := List.all_eq_true.mp hmiss m ((sortByCreatedAt_mem msgs m).mp hm)
    simpa using h1
  have hmissB : isMissingParent (sortByCreatedAt msgs) (pid, bucket) = true := by
    unfold isMissingParent
    rw [Bool.not_eq_true', List.any_eq_false]
    intro m hm
    simp [hmiss' m hm]
  have hmem : (pid, bucket) ∈ buildMissingParents (sortByCreatedAt msgs) :=
    List.mem_filter.mpr ⟨hcm, hmissB⟩
  have hbne : bucket ≠ [] := sortByCreatedAt_ne_nil _ hfilter_ne
  obtain ⟨c0, cs, hbc⟩ : ∃ c0 cs, bucket = c0 :: cs := by
    cases hb : bucket with
    | nil => exact absurd hb hbne
    | cons x xs => exact ⟨x, xs, rfl⟩
  have hnd := nodup_keys_buildMissingParents (sortByCreatedAt msgs)
  have hpfxes := pfx_free_buildMissingParents msgs hpfx
  have hsnd : (placeholderState msgs).2 =
      ((buildMissingParents (sortByCreatedAt msgs)).map mkPlaceholderEntry).flatten := by
    rw [placeholderState_eq, foldl_placeholderStep_snd, List.nil_append]
  refine ⟨⟨mkPlaceholder pid c0, c0, bucket, ?_, rfl, rfl, rfl, rfl, rfl, rfl,
    ?_, ?_, ?_, ?_⟩, ?_⟩
  · rw [hsnd]
    exact placeholderEntries_filter _ pid c0 cs hnd (hbc ▸ hmem)
  · show mapGet (placeholderState msgs).1 ("placeholder-" ++ pid) = some bucket
    rw [placeholderState_eq]
    exact foldl_placeholderStep_get_placeholder _ _ _ pid bucket hnd hpfxes hmem hbne
  · rw [hbc]
    simp
  · intro c hc
    have hsortb : List.Sorted cMsgLE bucket := hbdef ▸ sorted_sortByCreatedAt _
    rw [hbc] at hsortb hc
    rcases List.mem_cons.mp hc with h | h
    · exact le_of_eq (by rw [h])
    · exact List.rel_of_sorted_cons hsortb c h
  · rw [hbdef]
    exact (sortByCreatedAt_perm _).trans
      (List.Perm.filter _ (sortByCreatedAt_perm msgs))
  · intro ph hph
    rw [hsnd] at hph
    obtain ⟨e, d0, ds, he, hd, hphe⟩ := mem_placeholderEntries _ ph hph
    obtain ⟨-, ⟨m, hm, hmp⟩, hmiss2⟩ := mem_buildMissingParents_props _ e he
    exact ⟨e.1, by rw [hphe]; rfl, ⟨m, (sortByCreatedAt_mem msgs m).mp hm, hmp⟩,
      fun x hx => hmiss2 x ((sortByCreatedAt_mem msgs x).mpr hx)⟩

theorem c1_witness :
    (∃ ph c0 children,
      (placeholderState [c1Child]).2.filter
        (fun x => x.placeholderFor == some "gone") = [ph] ∧
      ph.author = "Deleted message" ∧ ph.content = "Message has been deleted" ∧
      ph.parentMessage = none ∧ ph.isPlaceholder = true ∧ ph.isOrphaned = true ∧
      ph.createdAt = c0.createdAt - 1000 ∧
      mapGet (placeholderState [c1Child]).1 ph._id = some children ∧
      c0 ∈ children ∧ (∀ c ∈ children, c0.createdAt ≤ c.createdAt) ∧
      children.Perm ([c1Child].filter (fun c => c.parentMessage == some "gone"))) ∧
    (∀ ph ∈ (placeholderState [c1Child]).2, ∃ q, ph.placeholderFor = some q ∧
      (∃ c ∈ [c1Child], c.parentMessage = some q) ∧ (∀ m ∈ [c1Child], m._id ≠ q)) :=
  c1_placeholder_synthesis [c1Child] "gone" (by decide) (by decide) (by decide)

theorem mem_placeholderState_snd (msgs : List CMsg) (ph : CMsg)
    (hph : ph ∈ (placeholderState msgs).2) :
    ph.parentMessage = none ∧ ∃ q, (∃ c ∈ msgs, c.parentMessage = some q) ∧
      ∀ x ∈ msgs, x._id ≠ q := by
  rw [placeholderState_eq, foldl_placeholderStep_snd, List.nil_append] at hph
  obtain ⟨e, d0, ds, he, hd, hphe⟩ := mem_placeholderEntries _ ph hph
  obtain ⟨-, ⟨m, hm, hmp⟩, hmiss2⟩ := mem_buildMissingParents_props _ e he
  subst hphe
  exact ⟨rfl, e.1, ⟨m, (sortByCreatedAt_mem msgs m).mp hm, hmp⟩,
    fun x hx => hmiss2 x ((sortByCreatedAt_mem msgs x).mpr hx)⟩

theorem placeholder_exists_for_missing (msgs : List CMsg) (c : CMsg) (pid : String)
    (hc : c ∈ msgs) (hp : c.parentMessage = some pid)
    (hmiss : ∀ x ∈ msgs, x._id ≠ pid) :
    ∃ ph ∈ (placeholderState msgs).2, ph.parentMessage = none := by
  have hfilter_ne :
      (sortByCreatedAt msgs).filter (fun m => m.parentMessage == some pid) ≠ [] := by
    intro he
    have hcin : c ∈ (sortByCreatedAt msgs).filter
        (fun m => m.parentMessage == some pid) :=
      List.mem_filter.mpr ⟨(sortByCreatedAt_mem msgs c).mpr hc, by simp [hp]⟩
    rw [he] at hcin
    simp at hcin
  have hempty : ((sortByCreatedAt msgs).filter
      (fun m => m.parentMessage == some pid)).isEmpty = false := by
    rw [Bool.eq_false_iff]
    intro hx
    exact hfilter_ne (List.isEmpty_iff.mp hx)
  have hget : mapGet (buildChildrenMap (sortByCreatedAt msgs)) pid =
      some (sortByCreatedAt ((sortByCreatedAt msgs).filter
        (fun m => m.parentMessage == some pid))) := by
    rw [mapGet_buildChildrenMap, hempty]
    simp
  have hcm := mem_of_mapGet _ _ _ hget
  have hmissB : isMissingParent (sortByCreatedAt msgs)
      (pid, sortByCreatedAt ((sortByCreatedAt msgs).filter
        (fun m => m.parentMessage == some pid))) = true := by
    unfold isMissingParent
    rw [Bool.not_eq_true', List.any_eq_false]
    intro m hm
    simp [hmiss m ((sortByCreatedAt_mem msgs m).mp hm)]
  have hmem := List.mem_filter.mpr ⟨hcm, hmissB⟩
  have hbne : sortByCreatedAt ((sortByCreatedAt msgs).filter
      (fun m => m.parentMessage == some pid)) ≠ [] :=
    sortByCreatedAt_ne_nil _ hfilter_ne
  obtain ⟨c0, cs, hbc⟩ : ∃ c0 cs, sortByCreatedAt ((sortByCreatedAt msgs).filter
      (fun m => m.parentMessage == some pid)) = c0 :: cs := by
    cases hb : sortByCreatedAt ((sortByCreatedAt msgs).filter
        (fun m => m.parentMessage == some pid)) with
    | nil => exact absurd hb hbne
    | cons x xs => exact ⟨x, xs, rfl⟩
  refine ⟨mkPlaceholder pid c0, ?_, rfl⟩
  rw [placeholderState_eq, foldl_placeholderStep_snd, List.nil_append]
  rw [List.mem_flatten]
  refine ⟨[mkPlaceholder pid c0], ?_, by simp⟩
  have : mkPlaceholderEntry (pid, c0 :: cs) = [mkPlaceholder pid c0] := rfl
  rw [← this]
  exact List.mem_map_of_mem mkPlaceholderEntry (hbc ▸ hmem)

theorem primary_isSome_iff (msgs : List CMsg) :
    (buildThreadStructure msgs).primaryMessage.isSome = true ↔
      ∃ r, (r ∈ msgs ∨ r ∈ (placeholderState msgs).2) ∧ r.parentMessage = none := by
  simp only [buildThreadStructure]
  split
  · rename_i hm
    rw [List.isEmpty_iff] at hm
    subst hm
    constructor
    · intro h; simp at h
    · rintro ⟨r, hr | hr, -⟩
      · simp at hr
      · rw [placeholderState_eq] at hr
        simp [buildMissingParents, buildChildrenMap, sortByCreatedAt,
          List.insertionSort] at hr
  · rename_i hm
    split
    · rename_i heq
      constructor
      · intro h; simp at h
      · rintro ⟨r, hr, hrn⟩
        have hr' : r ∈ sortByCreatedAt (sortByCreatedAt msgs ++ (placeholderState msgs).2) := by
          rw [sortByCreatedAt_mem, List.mem_append]
          rcases hr with hr | hr
          · exact Or.inl ((sortByCreatedAt_mem msgs r).mpr hr)
          · exact Or.inr hr
        have hrf : r ∈ (sortByCreatedAt (sortByCreatedAt msgs ++
            (placeholderState msgs).2)).filter (fun m => m.parentMessage.isNone) :=
          List.mem_filter.mpr ⟨hr', by simp [hrn]⟩
        rw [heq] at hrf
        simp at hrf
    · rename_i primary otherRoots heq
      constructor
      · intro _
        have hpf : primary ∈ (sortByCreatedAt (sortByCreatedAt msgs ++
            (placeholderState msgs).2)).filter (fun m => m.parentMessage.isNone) := by
          rw [heq]; simp
        have hpn : primary.parentMessage = none := by
          have := List.of_mem_filter hpf
          simpa using this
        have hpm : primary ∈ sortByCreatedAt msgs ++ (placeholderState msgs).2 := by
          have := List.mem_of_mem_filter hpf
          rwa [sortByCreatedAt_mem] at this
        rcases List.mem_append.mp hpm with h | h
        · exact ⟨primary, Or.inl ((sortByCreatedAt_mem msgs primary).mp h), hpn⟩
        · exact ⟨primary, Or.inr h, hpn⟩
      · intro _; rfl

theorem primary_spec (msgs : List CMsg) (pm : CMsg)
    (h : (buildThreadStructure msgs).primaryMessage = some pm) :
    pm.parentMessage = none ∧
    ∀ r, (r ∈ msgs ∨ r ∈ (placeholderState msgs).2) → r.parentMessage = none →
      pm.createdAt ≤ r.createdAt := by
  simp only [buildThreadStructure] at h
  split at h
  · simp at h
  · split at h
    · simp at h
    · rename_i primary otherRoots heq
      simp only [Option.some.injEq] at h
      subst h
      have hsortf : List.Sorted cMsgLE ((sortByCreatedAt (sortByCreatedAt msgs ++
          (placeholderState msgs).2)).filter (fun m => m.parentMessage.isNone)) :=
        List.Pairwise.filter _ (sorted_sortByCreatedAt _)
      rw [heq] at hsortf
      have hpf : primary ∈ (sortByCreatedAt (sortByCreatedAt msgs ++
          (placeholderState msgs).2)).filter (fun m => m.parentMessage.isNone) := by
        rw [heq]; simp
      constructor
      · have := List.of_mem_filter hpf
        simpa using this
      · intro r hr hrn
        have hr' : r ∈ sortByCreatedAt (sortByCreatedAt msgs ++
            (placeholderState msgs).2) := by
          rw [sortByCreatedAt_mem, List.mem_append]
          rcases hr with h1 | h1
          · exact Or.inl ((sortByCreatedAt_mem msgs r).mpr h1)
          · exact Or.inr h1
        have hrf : r ∈ (sortByCreatedAt (sortByCreatedAt msgs ++
            (placeholderState msgs).2)).filter (fun m => m.parentMessage.isNone) :=
          List.mem_filter.mpr ⟨hr', by simp [hrn]⟩
        rw [heq] at hrf
        rcases List.mem_cons.mp hrf with h1 | h1
        · exact le_of_eq (by rw [h1])
        · exact List.rel_of_sorted_cons hsortf r h1

/-- C6 (counterexample to the claim as stated): a visible set holding a
single message whose parent is missing contains no root message, yet
reconstruction still produces a primary thread — the synthesized
placeholder becomes the primary root. -/
theorem c6_counterexample :
    (buildThreadStructure [c6Orphan]).primaryMessage =
      some (mkPlaceholder "gone" c6Orphan) ∧
    [c6Orphan].filter (fun m => m.parentMessage.isNone) = [] := by
  exact ⟨by decide, by decide⟩

/-- C6 (amended): reconstruction produces a primary thread iff the set
contains a root message or a message whose parent id resolves to no
message of the set (the synthesized placeholder then supplies the root);
the primary root is the earliest, by `createdAt`, among the set's roots
and the synthesized placeholders; and an empty set yields an empty
structure. -/
theorem c6_amended (msgs : List CMsg) :
    ((buildThreadStructure msgs).primaryMessage.isSome = true ↔
      (∃ m ∈ msgs, m.parentMessage = none) ∨
      (∃ m ∈ msgs, ∃ pid, m.parentMessage = some pid ∧ ∀ x ∈ msgs, x._id ≠ pid)) ∧
    (∀ pm, (buildThreadStructure msgs).primaryMessage = some pm →
      pm.parentMessage = none ∧
      ∀ r, (r ∈ msgs ∨ r ∈ (placeholderState msgs).2) → r.parentMessage = none →
        pm.createdAt ≤ r.createdAt) ∧
    (msgs = [] → buildThreadStructure msgs = ⟨none, [], []⟩) := by
  refine ⟨?_, fun pm h => primary_spec msgs pm h, fun h => by subst h; rfl⟩
  rw [primary_isSome_iff]
  constructor
  · rintro ⟨r, hr | hr, hrn⟩
    · exact Or.inl ⟨r, hr, hrn⟩
    · obtain ⟨-, q, hq, hqm⟩ := mem_placeholderState_snd msgs r hr
      obtain ⟨c, hc, hcp⟩ := hq
      exact Or.inr ⟨c, hc, q, hcp, hqm⟩
  · rintro (⟨m, hm, hmn⟩ | ⟨c, hc, pid, hcp, hmiss⟩)
    · exact ⟨m, Or.inl hm, hmn⟩
    · obtain ⟨ph, hph, hphn⟩ := placeholder_exists_for_missing msgs c pid hc hcp hmiss
      exact ⟨ph, Or.inr hph, hphn⟩

theorem c6_amended_witness : buildThreadStructure ([] : List CMsg) = ⟨none, [], []⟩ :=
  (c6_amended []).2.2 rfl
